import Mathlib

/-!
# Verification of the paqet tunnel core

A shallow embedding, in Lean 4, of the parts of the paqet repository that the
frozen claims C1-C10 are about:

* the in-band protocol frame codec (`internal/protocol/protocol.go`), in its
  text-address form and in its binary-address form;
* the length-prefixed UDP-over-stream framing (`internal/pkg/buffer`);
* the classic-BPF filter compiler (`internal/socket`, both the hand-written
  dual-stack variant and the assembler-based IPv4-only variant);
* configuration validation (`internal/conf`);
* key derivation (PBKDF2-HMAC-SHA256) and key trimming (`internal/conf`);
* the per-packet AEAD of the UDP-mux transport (`internal/tnet/udp`);
* the client UDP stream pool and the server shared-UDP connection pool,
  as small interleaving state machines.

Go byte strings are modelled as `List Nat` whose elements are below 256;
machine integers are `Nat`/`Int` with explicit reductions modulo 2^w where the
Go code truncates.  Fallible code returns `Except` or `Option`.
-/

namespace Paqet

/-! ## Byte-level utilities -/

/-- Big-endian encoding of `uint16(n)` (Go truncates to 16 bits first). -/
def u16be (n : Nat) : List Nat := [n / 256 % 256, n % 256]

/-- Big-endian decoding of two bytes. -/
def u16dec (hi lo : Nat) : Nat := hi * 256 + lo

theorem u16dec_u16be (n : Nat) (h : n ≤ 65535) :
    u16dec (n / 256 % 256) (n % 256) = n := by
  simp only [u16dec]
  omega

@[simp] theorem u16be_length (n : Nat) : (u16be n).length = 2 := rfl

/-- Fuel-driven digit accumulator (structural recursion so that the kernel
    can evaluate it; the fuel is always at least the value). -/
def natDigitsGo : Nat → Nat → List Nat → List Nat
  | _, 0, acc => acc
  | 0, _ + 1, acc => acc
  | fuel + 1, n + 1, acc => natDigitsGo fuel ((n + 1) / 10) ((48 + (n + 1) % 10) :: acc)

theorem natDigitsGo_fuel :
    ∀ n fuel acc, n ≤ fuel → natDigitsGo fuel n acc = natDigitsGo n n acc := by
  intro n
  induction n using Nat.strong_induction_on with
  | _ n ih =>
    intro fuel acc hle
    match n, fuel with
    | 0, 0 => rfl
    | 0, f + 1 => rfl
    | m + 1, f + 1 =>
      rw [natDigitsGo, natDigitsGo]
      have hdiv : (m + 1) / 10 < m + 1 := Nat.div_lt_self (Nat.succ_pos m) (by norm_num)
      rw [ih ((m + 1) / 10) hdiv f _ (by omega),
        ih ((m + 1) / 10) hdiv m _ (by omega)]

/-- ASCII decimal digits of `n`, most significant first (accumulator form,
    mirroring `strconv.Itoa` for non-negative numbers). -/
def natDigitsAux (n : Nat) (acc : List Nat) : List Nat := natDigitsGo n n acc

theorem natDigitsAux_zero (acc : List Nat) : natDigitsAux 0 acc = acc := rfl

theorem natDigitsAux_succ (m : Nat) (acc : List Nat) :
    natDigitsAux (m + 1) acc = natDigitsAux ((m + 1) / 10) ((48 + (m + 1) % 10) :: acc) := by
  have hdiv : (m + 1) / 10 ≤ m := by
    have := Nat.div_lt_self (Nat.succ_pos m) (show 1 < 10 by norm_num)
    omega
  show natDigitsGo (m + 1) (m + 1) acc = _
  rw [natDigitsGo]
  exact natDigitsGo_fuel ((m + 1) / 10) m _ hdiv

/-- ASCII decimal representation of a natural number. -/
def natDigits (n : Nat) : List Nat :=
  if n = 0 then [48] else natDigitsAux n []

/-- A byte is an ASCII digit. -/
def isDigit (b : Nat) : Bool := 48 ≤ b && b ≤ 57

/-- Value of a digit string (callers check `isDigit` on every byte first). -/
def digitsVal (l : List Nat) : Nat := l.foldl (fun a d => a * 10 + (d - 48)) 0

/-- `strconv.Atoi` restricted to unsigned decimal strings. -/
def parseDecimal (l : List Nat) : Option Nat :=
  if l ≠ [] ∧ l.all isDigit then some (digitsVal l) else none

theorem natDigitsAux_append (n : Nat) :
    ∀ acc, natDigitsAux n acc = natDigitsAux n [] ++ acc := by
  induction n using Nat.strong_induction_on with
  | _ n ih =>
    intro acc
    match n with
    | 0 => simp [natDigitsAux_zero]
    | m + 1 =>
      rw [natDigitsAux_succ, natDigitsAux_succ]
      rw [ih ((m + 1) / 10) (Nat.div_lt_self (Nat.succ_pos m) (by norm_num)),
        ih ((m + 1) / 10) (Nat.div_lt_self (Nat.succ_pos m) (by norm_num))
          ((48 + (m + 1) % 10) :: [])]
      simp

theorem natDigitsAux_all_digits (n : Nat) :
    (natDigitsAux n []).all isDigit = true := by
  induction n using Nat.strong_induction_on with
  | _ n ih =>
    match n with
    | 0 => simp [natDigitsAux_zero]
    | m + 1 =>
      rw [natDigitsAux_succ, natDigitsAux_append]
      have hlt := Nat.div_lt_self (Nat.succ_pos m) (show 1 < 10 by norm_num)
      have hd : isDigit (48 + (m + 1) % 10) = true := by
        have := Nat.mod_lt (m + 1) (show 0 < 10 by norm_num)
        simp [isDigit]
        omega
      simp [List.all_append, ih _ hlt, hd]

theorem digitsVal_natDigitsAux (n : Nat) :
    ∀ a, (natDigitsAux n []).foldl (fun a d => a * 10 + (d - 48)) a
      = a * 10 ^ (natDigitsAux n []).length + n := by
  induction n using Nat.strong_induction_on with
  | _ n ih =>
    intro a
    match n with
    | 0 => simp [natDigitsAux_zero]
    | m + 1 =>
      rw [natDigitsAux_succ, natDigitsAux_append]
      have hlt := Nat.div_lt_self (Nat.succ_pos m) (show 1 < 10 by norm_num)
      rw [List.foldl_append]
      simp only [List.foldl_cons, List.foldl_nil]
      rw [ih _ hlt]
      simp only [List.length_append, List.length_cons, List.length_nil, Nat.zero_add]
      have hd : 48 + (m + 1) % 10 - 48 = (m + 1) % 10 := by omega
      rw [hd, pow_succ]
      nlinarith [Nat.div_add_mod (m + 1) 10]

theorem natDigitsAux_ne_nil (n : Nat) (h : n ≠ 0) : natDigitsAux n [] ≠ [] := by
  match n with
  | 0 => exact absurd rfl h
  | m + 1 =>
    rw [natDigitsAux_succ, natDigitsAux_append]
    simp

theorem parseDecimal_natDigits (n : Nat) :
    parseDecimal (natDigits n) = some n := by
  by_cases h0 : n = 0
  · subst h0; simp [natDigits, parseDecimal, digitsVal, isDigit]
  · simp only [natDigits, if_neg h0, parseDecimal]
    rw [if_pos ⟨natDigitsAux_ne_nil n h0, natDigitsAux_all_digits n⟩]
    have := digitsVal_natDigitsAux n 0
    simp only [digitsVal]
    rw [this]
    simp

theorem natDigits_all_digits (n : Nat) : (natDigits n).all isDigit = true := by
  by_cases h0 : n = 0
  · subst h0; simp [natDigits, isDigit]
  · simpa [natDigits, if_neg h0] using natDigitsAux_all_digits n

theorem natDigits_no_colon (n : Nat) : ¬ 58 ∈ natDigits n := by
  intro hmem
  have hall := natDigits_all_digits n
  rw [List.all_eq_true] at hall
  have := hall 58 hmem
  simp [isDigit] at this

theorem natDigits_ne_nil (n : Nat) : natDigits n ≠ [] := by
  by_cases h0 : n = 0
  · subst h0; simp [natDigits]
  · simp only [natDigits, if_neg h0]
    exact natDigitsAux_ne_nil n h0

/-- Split a list at the first occurrence of `b`, returning the parts before
    and after it. -/
def breakAtFirst (b : Nat) : List Nat → Option (List Nat × List Nat)
  | [] => none
  | x :: xs =>
      if x = b then some ([], xs)
      else (breakAtFirst b xs).map fun p => (x :: p.1, p.2)

theorem breakAtFirst_append {b : Nat} (pre post : List Nat) (h : ¬ b ∈ pre) :
    breakAtFirst b (pre ++ b :: post) = some (pre, post) := by
  induction pre with
  | nil => simp [breakAtFirst]
  | cons x xs ih =>
    simp only [List.mem_cons, not_or] at h
    have hxb : ¬ x = b := fun hx => h.1 hx.symm
    simp only [List.cons_append, breakAtFirst, if_neg hxb, List.append_eq, ih h.2]
    rfl

/-! ## Addresses (`tnet.Addr`)

The files defining `tnet.Addr`, `tnet.NewAddr` and `Addr.String` are not part
of the source snapshot (only their callers and the protocol tests are). -/

/-- Modelled from the spec: `tnet.Addr` (its defining file is absent from
    `src/`), a host:port pair where the host is a Go byte string (§3, §4.12;
    the protocol tests show `NewAddr("93.184.216.34:443")` yields
    `Host = "93.184.216.34"`, `Port = 443` and `NewAddr("[::1]:8080")` yields
    `Host = "::1"`, `Port = 8080`). -/
structure Addr where
  host : List Nat
  port : Nat
deriving DecidableEq, Repr

/-- Modelled from the spec: `Addr.String`, the textual `host:port` form with
    brackets around hosts that contain a colon (as in `net.JoinHostPort`). -/
def addrString (a : Addr) : List Nat :=
  if 58 ∈ a.host then 91 :: a.host ++ 93 :: 58 :: natDigits a.port
  else a.host ++ 58 :: natDigits a.port

/-- Protocol-level errors. -/
inductive PErr where
  | unknownProtoType
  | nilAddr
  | badAddr
  | eof
  | hostnameTooLong
  | unknownAddrType
deriving DecidableEq, Repr

/-- Plain (unbracketed) `host:port` parse: split at the last colon. -/
def parsePlainHostPort (l : List Nat) : Except PErr Addr :=
  match breakAtFirst 58 l.reverse with
  | some (pdRev, hostRev) =>
      let h := hostRev.reverse
      let pd := pdRev.reverse
      if 58 ∈ h then .error .badAddr
      else
        match parseDecimal pd with
        | some port => if port ≤ 65535 ∧ h ≠ [] then .ok ⟨h, port⟩ else .error .badAddr
        | none => .error .badAddr
  | none => .error .badAddr

/-- Bracketed `[host]:port` parse (`rest` is the input after the `[`). -/
def parseBracketHostPort (rest : List Nat) : Except PErr Addr :=
  match breakAtFirst 93 rest with
  | some (h, c :: pd) =>
      if c = 58 then
        match parseDecimal pd with
        | some port => if port ≤ 65535 ∧ h ≠ [] then .ok ⟨h, port⟩ else .error .badAddr
        | none => .error .badAddr
      else .error .badAddr
  | _ => .error .badAddr

/-- Modelled from the spec: `tnet.NewAddr` (its defining file is absent from
    `src/`): parse a textual `host:port`, keeping hostnames unresolved
    (spec §8 scenario 6 round-trips `host="example.invalid"`). -/
def parseAddrStr (l : List Nat) : Except PErr Addr :=
  match l with
  | [] => .error .badAddr
  | c :: rest => if c = 91 then parseBracketHostPort rest else parsePlainHostPort (c :: rest)

/-- A well-formed host/port pair: non-empty host without brackets, all bytes,
    16-bit port.  IPv4 literals and hostnames contain no colon; IPv6 literals
    do.  -/
def validAddr (a : Addr) : Prop :=
  a.host ≠ [] ∧ ¬ 91 ∈ a.host ∧ ¬ 93 ∈ a.host ∧ a.host.all (· < 256) ∧ a.port ≤ 65535

instance (a : Addr) : Decidable (validAddr a) := by
  unfold validAddr; infer_instance

theorem parsePlainHostPort_roundtrip (host : List Nat) (port : Nat)
    (hne : host ≠ []) (hc : ¬ 58 ∈ host) (hport : port ≤ 65535) :
    parsePlainHostPort (host ++ 58 :: natDigits port) = .ok ⟨host, port⟩ := by
  simp only [parsePlainHostPort, List.reverse_append, List.reverse_cons]
  have hrev : (natDigits port).reverse ++ [58] ++ host.reverse
      = (natDigits port).reverse ++ 58 :: host.reverse := by simp
  rw [hrev, breakAtFirst_append _ _ (by
    intro hmem
    exact natDigits_no_colon port (List.mem_reverse.mp hmem))]
  simp only [List.reverse_reverse]
  rw [if_neg hc, parseDecimal_natDigits]
  simp [hport, hne]

theorem parseAddrStr_addrString (a : Addr) (h : validAddr a) :
    parseAddrStr (addrString a) = .ok a := by
  obtain ⟨hne, h91, h93, _, hport⟩ := h
  by_cases hc : 58 ∈ a.host
  · -- bracketed form
    simp only [addrString, if_pos hc]
    simp only [parseAddrStr, List.cons_append]
    rw [if_pos trivial]
    simp only [parseBracketHostPort]
    rw [breakAtFirst_append _ _ h93]
    simp only [if_pos rfl]
    rw [parseDecimal_natDigits]
    simp [hport, hne]
  · -- plain form
    simp only [addrString, if_neg hc]
    match hh : a.host, hne with
    | x :: xs, _ =>
      have hx91 : ¬ x = 91 := by
        intro hx; exact h91 (by rw [hh, hx]; exact List.mem_cons_self _ _)
      simp only [List.cons_append, parseAddrStr, if_neg hx91]
      rw [← List.cons_append, ← hh]
      rw [parsePlainHostPort_roundtrip a.host a.port hne hc hport]

/-! ## TCP flag profiles (`conf.TCPF`) and their 2-byte packing -/

/-- `conf.TCPF`: one TCP flag profile (9 flag bits). -/
structure TCPF where
  fin : Bool
  syn : Bool
  rst : Bool
  psh : Bool
  ack : Bool
  urg : Bool
  ece : Bool
  cwr : Bool
  ns : Bool
deriving DecidableEq, Repr

instance : Inhabited TCPF :=
  ⟨⟨false, false, false, false, false, false, false, false, false⟩⟩

/-- `packTCPF`: encode a TCPF into 2 bytes (bit k of byte 0 for the k-th flag,
    bit 0 of byte 1 for NS), via the same bit-ors as the source. -/
def packTCPF (f : TCPF) : List Nat :=
  [(if f.fin then 1 <<< 0 else 0) ||| (if f.syn then 1 <<< 1 else 0) |||
     (if f.rst then 1 <<< 2 else 0) ||| (if f.psh then 1 <<< 3 else 0) |||
     (if f.ack then 1 <<< 4 else 0) ||| (if f.urg then 1 <<< 5 else 0) |||
     (if f.ece then 1 <<< 6 else 0) ||| (if f.cwr then 1 <<< 7 else 0),
   if f.ns then 1 <<< 0 else 0]

/-- `unpackTCPF`: decode a TCPF from 2 bytes. -/
def unpackTCPF (b0 b1 : Nat) : TCPF where
  fin := b0 &&& (1 <<< 0) ≠ 0
  syn := b0 &&& (1 <<< 1) ≠ 0
  rst := b0 &&& (1 <<< 2) ≠ 0
  psh := b0 &&& (1 <<< 3) ≠ 0
  ack := b0 &&& (1 <<< 4) ≠ 0
  urg := b0 &&& (1 <<< 5) ≠ 0
  ece := b0 &&& (1 <<< 6) ≠ 0
  cwr := b0 &&& (1 <<< 7) ≠ 0
  ns := b1 &&& (1 <<< 0) ≠ 0

theorem unpackTCPF_packTCPF (f : TCPF) :
    unpackTCPF ((packTCPF f).get! 0) ((packTCPF f).get! 1) = f := by
  obtain ⟨f1, f2, f3, f4, f5, f6, f7, f8, f9⟩ := f
  cases f1 <;> cases f2 <;> cases f3 <;> cases f4 <;> cases f5 <;> cases f6 <;>
    cases f7 <;> cases f8 <;> cases f9 <;> decide

@[simp] theorem packTCPF_length (f : TCPF) : (packTCPF f).length = 2 := rfl

/-! ## Protocol frames (`internal/protocol/protocol.go`) -/

/-- Frame kind constants (`PType`). -/
def PPING : Nat := 0x01

def PPONG : Nat := 0x02

def PTCPF : Nat := 0x03

def PTCP : Nat := 0x04

def PUDP : Nat := 0x05

/-- `protocol.Proto`: the frame struct (`Type`, `Addr`, `TCPF`). -/
structure Proto where
  ptype : Nat
  addr : Option Addr
  tcpf : List TCPF
deriving DecidableEq, Repr

/-- `writeTCPF` body: `uint16(len)` big-endian, then every entry packed into
    2 bytes (the count truncates to 16 bits; the loop writes all entries). -/
def writeTCPFBytes (l : List TCPF) : List Nat :=
  u16be l.length ++ l.flatMap packTCPF

/-- `readTCPF` entry loop: read `count` packed 2-byte entries. -/
def readTCPFEntries : Nat → List Nat → Except PErr (List TCPF × List Nat)
  | 0, rest => .ok ([], rest)
  | n + 1, b0 :: b1 :: rest =>
      (readTCPFEntries n rest).map fun p => (unpackTCPF b0 b1 :: p.1, p.2)
  | _ + 1, _ => .error .eof

/-- `readTCPF`: `uint16 count` big-endian, then `count` entries. -/
def readTCPFBytes : List Nat → Except PErr (List TCPF × List Nat)
  | hi :: lo :: rest => readTCPFEntries (u16dec hi lo) rest
  | _ => .error .eof

/-- `writeAddr` (text variant, `protocol.go:165`): `uint16(len(addrStr))`
    big-endian, then the bytes of `Addr.String()`. -/
def writeAddrText (a : Addr) : List Nat :=
  u16be (addrString a).length ++ addrString a

/-- `readAddr` (text variant, `protocol.go:148`): `uint16 addrLen`, that many
    bytes, then `tnet.NewAddr` on them. -/
def readAddrText (l : List Nat) : Except PErr (Addr × List Nat) :=
  match l with
  | hi :: lo :: rest =>
      let n := u16dec hi lo
      if n ≤ rest.length then
        match parseAddrStr (rest.take n) with
        | .ok a => .ok (a, rest.drop n)
        | .error e => .error e
      else .error .eof
  | _ => .error .eof

/-- `Proto.Write` (text-address variant): one kind byte, then the
    kind-specific body; kinds outside the five are refused. -/
def protoWrite (p : Proto) : Except PErr (List Nat) :=
  if p.ptype = PPING ∨ p.ptype = PPONG then .ok [p.ptype]
  else if p.ptype = PTCP ∨ p.ptype = PUDP then
    match p.addr with
    | none => .error .nilAddr
    | some a => .ok (p.ptype :: writeAddrText a)
  else if p.ptype = PTCPF then .ok (p.ptype :: writeTCPFBytes p.tcpf)
  else .error .unknownProtoType

/-- `Proto.Read` (text-address variant): one kind byte then the body; an
    unknown leading byte is `ErrUnknownProtoType`. -/
def protoRead (l : List Nat) : Except PErr (Proto × List Nat) :=
  match l with
  | [] => .error .eof
  | t :: rest =>
      if t = PPING ∨ t = PPONG then .ok (⟨t, none, []⟩, rest)
      else if t = PTCP ∨ t = PUDP then
        (readAddrText rest).map fun p => (⟨t, some p.1, []⟩, p.2)
      else if t = PTCPF then
        (readTCPFBytes rest).map fun p => (⟨t, none, p.1⟩, p.2)
      else .error .unknownProtoType

/-- A frame the encoder can faithfully represent: one of the five kinds, with
    the fields the kind uses well-formed and the unused fields empty. -/
def wellFormedProto (p : Proto) : Prop :=
  ((p.ptype = PPING ∨ p.ptype = PPONG) ∧ p.addr = none ∧ p.tcpf = []) ∨
    (p.ptype = PTCPF ∧ p.addr = none ∧ p.tcpf.length ≤ 65535) ∨
    ((p.ptype = PTCP ∨ p.ptype = PUDP) ∧ p.tcpf = [] ∧
      ∃ a, p.addr = some a ∧ validAddr a ∧ (addrString a).length ≤ 65535)

theorem readTCPFEntries_flatMap (l : List TCPF) :
    ∀ rest, readTCPFEntries l.length (l.flatMap packTCPF ++ rest) = .ok (l, rest) := by
  induction l with
  | nil => intro rest; simp [readTCPFEntries]
  | cons f fs ih =>
    intro rest
    have hpack : packTCPF f = [(packTCPF f).get! 0, (packTCPF f).get! 1] := by
      obtain ⟨f1, f2, f3, f4, f5, f6, f7, f8, f9⟩ := f
      simp [packTCPF]
    rw [List.flatMap_cons, List.length_cons, hpack]
    simp only [List.cons_append, List.nil_append, List.append_assoc, List.append_eq,
      readTCPFEntries]
    rw [ih rest]
    simp only [Except.map]
    rw [unpackTCPF_packTCPF f]

theorem readTCPFBytes_writeTCPFBytes (l : List TCPF) (h : l.length ≤ 65535) :
    ∀ rest, readTCPFBytes (writeTCPFBytes l ++ rest) = .ok (l, rest) := by
  intro rest
  simp only [writeTCPFBytes, u16be, List.cons_append, List.append_assoc,
    readTCPFBytes, List.nil_append]
  rw [u16dec_u16be l.length h]
  exact readTCPFEntries_flatMap l rest

theorem readAddrText_writeAddrText (a : Addr) (hv : validAddr a)
    (hlen : (addrString a).length ≤ 65535) :
    ∀ rest, readAddrText (writeAddrText a ++ rest) = .ok (a, rest) := by
  intro rest
  simp only [writeAddrText, u16be, List.cons_append, List.append_assoc,
    readAddrText, List.nil_append]
  rw [u16dec_u16be (addrString a).length hlen]
  rw [if_pos (by simp)]
  rw [List.take_left, List.drop_left]
  rw [parseAddrStr_addrString a hv]

/-- **C1** (amended: the TCPF list holds at most 65535 records).  Encoding any
    well-formed frame of the five kinds with `Proto.Write` and decoding the
    result with `Proto.Read` returns exactly the original frame — same type,
    same address host and port, same flag list in order — and consumes
    exactly the encoded bytes. -/
theorem c1_proto_write_read_roundtrip (p : Proto) (h : wellFormedProto p) :
    ∀ rest, ∃ out, protoWrite p = .ok out ∧ protoRead (out ++ rest) = .ok (p, rest) := by
  intro rest
  rcases h with ⟨hk, haddr, htcpf⟩ | ⟨hk, haddr, htcpf⟩ | ⟨hk, htcpf, a, haddr, hv, hlen⟩
  · refine ⟨[p.ptype], ?_, ?_⟩
    · simp [protoWrite, hk]
    · obtain ⟨t, ad, tf⟩ := p
      simp only at hk haddr htcpf
      subst haddr htcpf
      simp only [List.cons_append, List.nil_append, protoRead]
      rw [if_pos hk]
  · have hne1 : ¬ (p.ptype = PPING ∨ p.ptype = PPONG) := by
      rw [hk]; decide
    refine ⟨p.ptype :: writeTCPFBytes p.tcpf, ?_, ?_⟩
    · simp only [protoWrite, if_neg hne1]
      rw [if_neg (by rw [hk]; decide), if_pos hk]
    · obtain ⟨t, ad, tf⟩ := p
      simp only at hk haddr htcpf ⊢
      subst haddr hk
      simp only [List.cons_append, protoRead]
      rw [if_neg (by decide), if_neg (by decide), if_pos trivial]
      rw [readTCPFBytes_writeTCPFBytes tf htcpf rest]
      rfl
  · have hne1 : ¬ (p.ptype = PPING ∨ p.ptype = PPONG) := by
      rcases hk with hk | hk <;> rw [hk] <;> decide
    refine ⟨p.ptype :: writeAddrText a, ?_, ?_⟩
    · simp only [protoWrite, if_neg hne1, if_pos hk, haddr]
    · obtain ⟨t, ad, tf⟩ := p
      simp only at hk haddr htcpf ⊢
      subst haddr htcpf
      simp only [List.cons_append, protoRead]
      rw [if_neg (by rcases hk with hk | hk <;> rw [hk] <;> decide), if_pos hk]
      rw [readAddrText_writeAddrText a hv hlen rest]
      rfl

/-- Witness for C1: the round-trip theorem applied to a concrete
    `PTCP 93.184.216.34:443` frame. -/
theorem c1_proto_write_read_roundtrip_witness :
    ∃ out,
      protoWrite ⟨PTCP, some ⟨[57, 51, 46, 49, 56, 52, 46, 50, 49, 54, 46, 51, 52], 443⟩, []⟩
          = .ok out ∧
        protoRead (out ++ [9, 9]) =
          .ok (⟨PTCP, some ⟨[57, 51, 46, 49, 56, 52, 46, 50, 49, 54, 46, 51, 52], 443⟩, []⟩,
            [9, 9]) :=
  c1_proto_write_read_roundtrip _
    (Or.inr (Or.inr ⟨Or.inl rfl, rfl, _, rfl, by decide, by decide⟩)) [9, 9]

/-- **C1 counterexample**: a `PTCPF` frame with 65536 flag records does not
    round-trip — the `uint16` count truncates to 0, so decoding returns an
    empty flag list. -/
theorem c1_counterexample :
    ∃ out, protoWrite ⟨PTCPF, none, List.replicate 65536 default⟩ = .ok out ∧
      ∀ q rest, protoRead out = .ok (q, rest) →
        q ≠ ⟨PTCPF, none, List.replicate 65536 default⟩ := by
  refine ⟨PTCPF :: writeTCPFBytes (List.replicate 65536 default), ?_, ?_⟩
  · rw [protoWrite]
    rw [if_neg (by decide), if_neg (by decide), if_pos rfl]
  · intro q rest hread
    have hcount : u16be (List.replicate (α := TCPF) 65536 default).length = [0, 0] := by
      rw [List.length_replicate]
      decide
    rw [protoRead] at hread
    rw [if_neg (by decide), if_neg (by decide), if_pos rfl] at hread
    rw [writeTCPFBytes, hcount] at hread
    simp only [List.cons_append, List.nil_append, readTCPFBytes] at hread
    rw [show u16dec 0 0 = 0 from rfl] at hread
    simp only [readTCPFEntries, Except.map, Except.ok.injEq, Prod.mk.injEq] at hread
    intro hq
    rw [hq] at hread
    have htf : List.replicate (α := TCPF) 65536 default = [] := by
      have := hread.1
      exact (congrArg Proto.tcpf this).symm
    have hlen := congrArg List.length htf
    rw [List.length_replicate, List.length_nil] at hlen
    exact absurd hlen (by decide)

/-! ## C3: exactly five frame kinds; unknown kinds are errors -/

/-- Modelled from the spec: the server per-connection stream dispatcher
    (§4.11, §7; the accept-loop file is absent from `src/`).  A stream whose
    first protocol frame fails to parse is closed; the transport connection
    stays up. -/
structure SessionState where
  openStreams : List Nat
  connUp : Bool
deriving DecidableEq, Repr

/-- Modelled from the spec: dispatch the result of reading one protocol frame
    on stream `sid`: on a protocol error only that stream is closed. -/
def serverDispatchFrame (st : SessionState) (sid : Nat)
    (r : Except PErr (Proto × List Nat)) : SessionState :=
  match r with
  | .error _ => { openStreams := st.openStreams.filter (· ≠ sid), connUp := st.connUp }
  | .ok _ => st

/-- **C3**.  The in-band protocol has exactly the five kinds
    `PPING=0x01 … PUDP=0x05`; `Proto.Read` of any other leading byte is the
    unknown-protocol-type error and `Proto.Write` refuses any other kind;
    dispatching such an error closes the offending stream and leaves the
    connection up. -/
theorem c3_five_frame_kinds :
    (PPING = 0x01 ∧ PPONG = 0x02 ∧ PTCPF = 0x03 ∧ PTCP = 0x04 ∧ PUDP = 0x05) ∧
      (∀ t rest, ¬ (t = PPING ∨ t = PPONG ∨ t = PTCPF ∨ t = PTCP ∨ t = PUDP) →
        protoRead (t :: rest) = .error .unknownProtoType) ∧
      (∀ p : Proto,
        ¬ (p.ptype = PPING ∨ p.ptype = PPONG ∨ p.ptype = PTCPF ∨ p.ptype = PTCP ∨
            p.ptype = PUDP) →
          protoWrite p = .error .unknownProtoType) ∧
      (∀ st sid t rest,
        ¬ (t = PPING ∨ t = PPONG ∨ t = PTCPF ∨ t = PTCP ∨ t = PUDP) →
          ¬ sid ∈ (serverDispatchFrame st sid (protoRead (t :: rest))).openStreams ∧
            (serverDispatchFrame st sid (protoRead (t :: rest))).connUp = st.connUp) := by
  refine ⟨⟨rfl, rfl, rfl, rfl, rfl⟩, ?_, ?_, ?_⟩
  · intro t rest h
    push_neg at h
    obtain ⟨h1, h2, h3, h4, h5⟩ := h
    rw [protoRead]
    rw [if_neg (by tauto), if_neg (by tauto), if_neg h3]
  · intro p h
    push_neg at h
    obtain ⟨h1, h2, h3, h4, h5⟩ := h
    rw [protoWrite]
    rw [if_neg (by tauto), if_neg (by tauto), if_neg h3]
  · intro st sid t rest h
    push_neg at h
    obtain ⟨h1, h2, h3, h4, h5⟩ := h
    have hread : protoRead (t :: rest) = .error .unknownProtoType := by
      rw [protoRead]
      rw [if_neg (by tauto), if_neg (by tauto), if_neg h3]
    rw [hread]
    constructor
    · simp [serverDispatchFrame]
    · rfl

/-- Witness for C3: byte `0xFF` is refused by `Proto.Read`, kind `0x00` is
    refused by `Proto.Write`, and the dispatcher closes stream 7 of a
    two-stream connection while keeping the connection up. -/
theorem c3_five_frame_kinds_witness :
    protoRead (0xFF :: [1, 2, 3]) = .error .unknownProtoType ∧
      protoWrite ⟨0x00, none, []⟩ = .error .unknownProtoType ∧
      ¬ 7 ∈ (serverDispatchFrame ⟨[7, 9], true⟩ 7 (protoRead (0xFF :: []))).openStreams ∧
        (serverDispatchFrame ⟨[7, 9], true⟩ 7 (protoRead (0xFF :: []))).connUp = true :=
  ⟨c3_five_frame_kinds.2.1 0xFF [1, 2, 3] (by decide),
    c3_five_frame_kinds.2.2.1 ⟨0x00, none, []⟩ (by decide),
    (c3_five_frame_kinds.2.2.2 ⟨[7, 9], true⟩ 7 0xFF [] (by decide)).1,
    (c3_five_frame_kinds.2.2.2 ⟨[7, 9], true⟩ 7 0xFF [] (by decide)).2⟩

/-! ## C4: UDP-over-stream framing (`internal/pkg/buffer`) -/

/-- I/O-level errors of the framing layer. -/
inductive BufErr where
  | shortBuffer
  | eof
deriving DecidableEq, Repr

/-- `buffer.WriteUDPFrame`: reject payloads over 65535 bytes before writing
    anything, otherwise emit `[uint16 length big-endian] ++ payload`. -/
def writeUDPFrame (data : List Nat) : Except BufErr (List Nat) :=
  if data.length > 65535 then .error .shortBuffer
  else .ok (u16be data.length ++ data)

/-- `buffer.ReadUDPFrame` against a destination buffer of capacity `bufLen`:
    read the 2-byte header, reject frames longer than the buffer, then read
    exactly `length` payload bytes. -/
def readUDPFrame (bufLen : Nat) (l : List Nat) : Except BufErr (List Nat × List Nat) :=
  match l with
  | hi :: lo :: rest =>
      let n := u16dec hi lo
      if n > bufLen then .error .shortBuffer
      else if rest.length < n then .error .eof
      else .ok (rest.take n, rest.drop n)
  | _ => .error .eof

/-- **C4**.  Every datagram of at most 65535 bytes (including 0 and 65535)
    round-trips through `WriteUDPFrame`/`ReadUDPFrame` when the destination
    buffer holds at least the datagram, and every larger datagram is rejected
    by `WriteUDPFrame` before any byte is written. -/
theorem c4_udp_frame_roundtrip (d : List Nat) (bufLen : Nat) :
    (d.length ≤ 65535 → d.length ≤ bufLen →
      ∀ rest, ∃ out, writeUDPFrame d = .ok out ∧
        readUDPFrame bufLen (out ++ rest) = .ok (d, rest)) ∧
      (d.length > 65535 → writeUDPFrame d = .error .shortBuffer) := by
  constructor
  · intro hlen hbuf rest
    refine ⟨u16be d.length ++ d, ?_, ?_⟩
    · rw [writeUDPFrame, if_neg (by omega)]
    · simp only [u16be, List.cons_append, List.nil_append, List.append_assoc, readUDPFrame]
      rw [u16dec_u16be d.length hlen]
      rw [if_neg (by omega), if_neg (by simp)]
      rw [List.take_left, List.drop_left]
  · intro hlen
    rw [writeUDPFrame, if_pos hlen]

/-- Witness for C4: the empty datagram and a 3-byte datagram round-trip with
    a 65535-byte buffer; a 65536-byte datagram is rejected. -/
theorem c4_udp_frame_roundtrip_witness :
    (∃ out, writeUDPFrame [] = .ok out ∧ readUDPFrame 65535 (out ++ [5]) = .ok ([], [5])) ∧
      (∃ out, writeUDPFrame [10, 20, 30] = .ok out ∧
        readUDPFrame 65535 (out ++ []) = .ok ([10, 20, 30], [])) ∧
      writeUDPFrame (List.replicate 65536 0) = .error .shortBuffer :=
  ⟨(c4_udp_frame_roundtrip [] 65535).1 (by decide) (by decide) [5],
    (c4_udp_frame_roundtrip [10, 20, 30] 65535).1 (by decide) (by decide) [],
    (c4_udp_frame_roundtrip (List.replicate 65536 0) 65535).2 (by
      rw [List.length_replicate]; decide)⟩

/-! ## C2: the binary address encoding of PTCP/PUDP frames

The binary variant of `Proto.readAddr`/`Proto.writeAddr` (the file bundled
with `protocol_test.go`): type byte `0x01`/`0x02`/`0x03`, then 4/16/len-prefixed
address bytes, then the port as a big-endian `uint16`.  `net.ParseIP`,
`IP.To4` and `IP.String` are Go standard library; they are embedded below
following their documented behaviour. -/

/-- Split a byte list on every occurrence of `b` (like `strings.Split`). -/
def splitOnByte (b : Nat) : List Nat → List (List Nat)
  | [] => [[]]
  | x :: xs =>
      match splitOnByte b xs with
      | [] => [[]]
      | h :: t => if x = b then [] :: h :: t else (x :: h) :: t

/-- One dotted-quad field: 1-3 digits, value ≤ 255, no leading zero. -/
def parseV4Field (l : List Nat) : Option Nat :=
  if l = [] ∨ l.length > 3 ∨ ¬ l.all isDigit then none
  else if l.length > 1 ∧ l.get! 0 = 48 then none
  else if digitsVal l ≤ 255 then some (digitsVal l) else none

/-- `net.ParseIP`, dotted-quad branch: four fields separated by dots. -/
def parseIPv4 (l : List Nat) : Option (List Nat) :=
  match splitOnByte 46 l with
  | [fa, fb, fc, fd] =>
      (parseV4Field fa).bind fun a =>
        (parseV4Field fb).bind fun b =>
          (parseV4Field fc).bind fun c =>
            (parseV4Field fd).map fun d => [a, b, c, d]
  | _ => none

/-- One hexadecimal digit value. -/
def parseHexDigit (b : Nat) : Option Nat :=
  if 48 ≤ b ∧ b ≤ 57 then some (b - 48)
  else if 97 ≤ b ∧ b ≤ 102 then some (b - 87)
  else if 65 ≤ b ∧ b ≤ 70 then some (b - 55)
  else none

/-- One IPv6 group: 1-4 hex digits. -/
def parseHexGroup (l : List Nat) : Option Nat :=
  if l = [] ∨ l.length > 4 then none
  else l.foldl (fun acc b => acc.bind fun a => (parseHexDigit b).map fun d => a * 16 + d)
    (some 0)

/-- Find the first `::`, returning the bytes before and after it. -/
def findDoubleColon : List Nat → Option (List Nat × List Nat)
  | [] => none
  | x :: rest =>
      match rest with
      | [] => none
      | y :: rest2 =>
          if x = 58 ∧ y = 58 then some ([], rest2)
          else (findDoubleColon rest).map fun p => (x :: p.1, p.2)

/-- Convert colon-separated IPv6 groups to bytes; the last group may be an
    embedded dotted-quad IPv4 address. -/
def groupsToBytes : List (List Nat) → Option (List Nat)
  | [] => some []
  | g :: gs =>
      if 46 ∈ g then
        if gs = [] then parseIPv4 g else none
      else
        (parseHexGroup g).bind fun v =>
          (groupsToBytes gs).map fun rest => v / 256 :: v % 256 :: rest

/-- `net.ParseIP`, IPv6 branch: groups with at most one `::` compression. -/
def parseIPv6 (l : List Nat) : Option (List Nat) :=
  match findDoubleColon l with
  | some (pre, post) =>
      if (findDoubleColon post).isSome then none
      else
        (groupsToBytes (if pre = [] then [] else splitOnByte 58 pre)).bind fun preB =>
          (groupsToBytes (if post = [] then [] else splitOnByte 58 post)).bind fun postB =>
            if preB.length + postB.length ≤ 14 then
              some (preB ++ List.replicate (16 - preB.length - postB.length) 0 ++ postB)
            else none
  | none =>
      (groupsToBytes (splitOnByte 58 l)).bind fun b =>
        if b.length = 16 then some b else none

/-- `net.ParseIP`: colon means IPv6, otherwise dotted-quad IPv4. -/
def parseIPGo (l : List Nat) : Option (List Nat) :=
  if 58 ∈ l then parseIPv6 l else parseIPv4 l

/-- `IP.To4`: 4-byte addresses and IPv4-mapped 16-byte addresses. -/
def ipTo4 (b : List Nat) : Option (List Nat) :=
  if b.length = 4 then some b
  else if b.length = 16 ∧ b.take 10 = List.replicate 10 0 ∧ b.get! 10 = 255 ∧
      b.get! 11 = 255 then
    some (b.drop 12)
  else none

/-- `IP.To16`: widen a 4-byte address to its IPv4-mapped 16-byte form. -/
def ipTo16 (b : List Nat) : List Nat :=
  if b.length = 4 then List.replicate 10 0 ++ [255, 255] ++ b else b

/-- Dotted-quad rendering of 4 address bytes. -/
def ip4String (b : List Nat) : List Nat :=
  natDigits (b.get! 0) ++ 46 :: natDigits (b.get! 1) ++ 46 :: natDigits (b.get! 2) ++
    46 :: natDigits (b.get! 3)

/-- Lowercase hexadecimal digits of `n` (fuel-driven like `natDigitsGo`). -/
def hexDigitsGo : Nat → Nat → List Nat → List Nat
  | _, 0, acc => acc
  | 0, _ + 1, acc => acc
  | fuel + 1, n + 1, acc =>
      hexDigitsGo fuel ((n + 1) / 16)
        ((if (n + 1) % 16 < 10 then 48 + (n + 1) % 16 else 87 + (n + 1) % 16) :: acc)

/-- Lowercase hexadecimal rendering of a group value. -/
def hexDigits (n : Nat) : List Nat :=
  if n = 0 then [48] else hexDigitsGo n n []

/-- The eight 16-bit groups of a 16-byte address. -/
def ip16Groups (b : List Nat) : List Nat :=
  (List.range 8).map fun i => b.get! (2 * i) * 256 + b.get! (2 * i + 1)

/-- Length of the zero-group run starting at index `i`. -/
def zeroRunAt (gs : List Nat) (i : Nat) : Nat :=
  ((gs.drop i).takeWhile (· = 0)).length

/-- Leftmost longest run of at least two zero groups (RFC 5952 §4.2). -/
def bestZeroRun (gs : List Nat) : Option (Nat × Nat) :=
  let best := ((List.range gs.length).map fun i => (i, zeroRunAt gs i)).foldl
    (fun b c => if c.2 > b.2 then c else b) (0, 0)
  if best.2 ≥ 2 then some best else none

/-- Join group renderings with colons. -/
def joinColon : List (List Nat) → List Nat
  | [] => []
  | [g] => g
  | g :: gs => g ++ 58 :: joinColon gs

/-- `IP.String` on a 16-byte address: dotted quad when IPv4-mapped, otherwise
    RFC 5952 compressed lowercase hexadecimal groups. -/
def ip16String (b : List Nat) : List Nat :=
  match ipTo4 b with
  | some b4 => ip4String b4
  | none =>
      let gs := ip16Groups b
      match bestZeroRun gs with
      | none => joinColon (gs.map hexDigits)
      | some (s, len) =>
          joinColon ((gs.take s).map hexDigits) ++ 58 :: 58 ::
            joinColon ((gs.drop (s + len)).map hexDigits)

/-- Read `n` bytes or fail (an `io.ReadFull`). -/
def readBytesN (n : Nat) (l : List Nat) : Except PErr (List Nat × List Nat) :=
  if n ≤ l.length then .ok (l.take n, l.drop n) else .error .eof

/-- `writeAddr`, binary variant: `ParseIP`+`To4` classify the host as IPv4
    (type 1, 4 bytes), IPv6 (type 2, 16 bytes) or hostname (type 3, length
    byte, at most 255 bytes); then the port as big-endian `uint16`. -/
def writeAddrBin (a : Addr) : Except PErr (List Nat) :=
  match parseIPGo a.host with
  | some ip =>
      match ipTo4 ip with
      | some ip4 => .ok (1 :: ip4 ++ u16be a.port)
      | none => .ok (2 :: ipTo16 ip ++ u16be a.port)
  | none =>
      if a.host.length > 255 then .error .hostnameTooLong
      else .ok (3 :: a.host.length :: a.host ++ u16be a.port)

/-- `readAddr`, binary variant: dispatch on the type byte, read 4/16/len
    address bytes (IPs rendered back with `IP.String`), then 2 port bytes. -/
def readAddrBin (l : List Nat) : Except PErr (Addr × List Nat) :=
  match l with
  | [] => .error .eof
  | t :: rest =>
      if t = 1 then
        match readBytesN 4 rest with
        | .ok (ip, r2) =>
            match readBytesN 2 r2 with
            | .ok (pb, r3) => .ok (⟨ip4String ip, u16dec (pb.get! 0) (pb.get! 1)⟩, r3)
            | .error e => .error e
        | .error e => .error e
      else if t = 2 then
        match readBytesN 16 rest with
        | .ok (ip, r2) =>
            match readBytesN 2 r2 with
            | .ok (pb, r3) => .ok (⟨ip16String ip, u16dec (pb.get! 0) (pb.get! 1)⟩, r3)
            | .error e => .error e
        | .error e => .error e
      else if t = 3 then
        match rest with
        | [] => .error .eof
        | n :: r1 =>
            match readBytesN n r1 with
            | .ok (h, r2) =>
                match readBytesN 2 r2 with
                | .ok (pb, r3) => .ok (⟨h, u16dec (pb.get! 0) (pb.get! 1)⟩, r3)
                | .error e => .error e
            | .error e => .error e
      else .error .unknownAddrType

/-- `Proto.Write`, binary-address variant, for the address-carrying kinds. -/
def protoWriteBin (p : Proto) : Except PErr (List Nat) :=
  if p.ptype = PTCP ∨ p.ptype = PUDP then
    match p.addr with
    | none => .error .nilAddr
    | some a => (writeAddrBin a).map fun body => p.ptype :: body
  else .error .unknownProtoType

/-- `Proto.Read`, binary-address variant, for the address-carrying kinds. -/
def protoReadBin (l : List Nat) : Except PErr (Proto × List Nat) :=
  match l with
  | [] => .error .eof
  | t :: rest =>
      if t = PTCP ∨ t = PUDP then
        (readAddrBin rest).map fun p => (⟨t, some p.1, []⟩, p.2)
      else .error .unknownProtoType

theorem parseIPv4_length {l b : List Nat} (h : parseIPv4 l = some b) : b.length = 4 := by
  rw [parseIPv4] at h
  split at h
  · rw [Option.bind_eq_some] at h
    obtain ⟨a, _, h⟩ := h
    rw [Option.bind_eq_some] at h
    obtain ⟨bb, _, h⟩ := h
    rw [Option.bind_eq_some] at h
    obtain ⟨c, _, h⟩ := h
    rw [Option.map_eq_some'] at h
    obtain ⟨d, _, h⟩ := h
    rw [← h]
    rfl
  · exact absurd h (by simp)

theorem parseIPv6_length {l b : List Nat} (h : parseIPv6 l = some b) : b.length = 16 := by
  rw [parseIPv6] at h
  split at h
  · split at h
    · exact absurd h (by simp)
    · rw [Option.bind_eq_some] at h
      obtain ⟨preB, _, h⟩ := h
      rw [Option.bind_eq_some] at h
      obtain ⟨postB, _, h⟩ := h
      split at h
      · simp only [Option.some.injEq] at h
        rw [← h]
        simp only [List.length_append, List.length_replicate]
        omega
      · exact absurd h (by simp)
  · rw [Option.bind_eq_some] at h
    obtain ⟨bb, hb16, h⟩ := h
    split at h
    · simp only [Option.some.injEq] at h
      rw [← h]
      assumption
    · exact absurd h (by simp)

theorem ipTo4_length {b b4 : List Nat} (h : ipTo4 b = some b4) : b4.length = 4 := by
  rw [ipTo4] at h
  by_cases h4 : b.length = 4
  · rw [if_pos h4] at h
    simp only [Option.some.injEq] at h
    rw [← h]; exact h4
  · rw [if_neg h4] at h
    by_cases hm : b.length = 16 ∧ b.take 10 = List.replicate 10 0 ∧ b.get! 10 = 255 ∧
        b.get! 11 = 255
    · rw [if_pos hm] at h
      simp only [Option.some.injEq] at h
      rw [← h]
      simp [hm.1]
    · rw [if_neg hm] at h; simp at h

theorem readBytesN_append (pre post : List Nat) :
    readBytesN pre.length (pre ++ post) = .ok (pre, post) := by
  rw [readBytesN, if_pos (by simp)]
  rw [List.take_left, List.drop_left]

/-- The three-way shape of a binary address body: address-type byte, then
    4 / 16 / length-prefixed address bytes, then the big-endian port. -/
def binAddrShape (a : Addr) (body : List Nat) : Prop :=
  (∃ ip ip4, parseIPGo a.host = some ip ∧ ipTo4 ip = some ip4 ∧ ip4.length = 4 ∧
      body = 1 :: (ip4 ++ u16be a.port)) ∨
    (∃ ip, parseIPGo a.host = some ip ∧ ipTo4 ip = none ∧ ip.length = 16 ∧
      body = 2 :: (ip ++ u16be a.port)) ∨
    (parseIPGo a.host = none ∧ a.host.length ≤ 255 ∧
      body = 3 :: a.host.length :: (a.host ++ u16be a.port))

theorem writeAddrBin_shape (a : Addr)
    (hname : parseIPGo a.host = none → a.host.length ≤ 255) :
    ∃ body, writeAddrBin a = .ok body ∧ binAddrShape a body := by
  match hip : parseIPGo a.host with
  | some ip =>
    match h4 : ipTo4 ip with
    | some ip4 =>
      refine ⟨1 :: (ip4 ++ u16be a.port), ?_, ?_⟩
      · simp only [writeAddrBin, hip, h4, List.cons_append]
      · exact Or.inl ⟨ip, ip4, hip, h4, ipTo4_length h4, rfl⟩
    | none =>
      have hlen16 : ip.length = 16 := by
        rw [parseIPGo] at hip
        by_cases hc : 58 ∈ a.host
        · rw [if_pos hc] at hip
          exact parseIPv6_length hip
        · rw [if_neg hc] at hip
          have hl4 := parseIPv4_length hip
          rw [ipTo4, if_pos hl4] at h4
          exact absurd h4 (by simp)
      have h16 : ipTo16 ip = ip := by rw [ipTo16, if_neg (by omega)]
      refine ⟨2 :: (ip ++ u16be a.port), ?_, ?_⟩
      · simp only [writeAddrBin, hip, h4, h16, List.cons_append]
      · exact Or.inr (Or.inl ⟨ip, hip, h4, hlen16, rfl⟩)
  | none =>
    refine ⟨3 :: a.host.length :: (a.host ++ u16be a.port), ?_, ?_⟩
    · have h255 := hname hip
      simp only [writeAddrBin, hip]
      rw [if_neg (by omega)]
      simp [List.cons_append]

    · exact Or.inr (Or.inr ⟨hip, hname hip, rfl⟩)

theorem readAddrBin_v4 (ip4 : List Nat) (h4 : ip4.length = 4) (port : Nat)
    (hp : port ≤ 65535) (rest : List Nat) :
    readAddrBin (1 :: (ip4 ++ u16be port ++ rest)) = .ok (⟨ip4String ip4, port⟩, rest) := by
  have h1 : readBytesN 4 (ip4 ++ (u16be port ++ rest)) = .ok (ip4, u16be port ++ rest) := by
    rw [← h4]
    exact readBytesN_append ip4 (u16be port ++ rest)
  have h2 : readBytesN 2 (u16be port ++ rest) = .ok (u16be port, rest) :=
    readBytesN_append (u16be port) rest
  simp [readAddrBin, List.append_assoc, h1, h2]
  show u16dec (port / 256 % 256) (port % 256) = port
  exact u16dec_u16be port hp

theorem readAddrBin_v6 (ip16 : List Nat) (h16 : ip16.length = 16) (port : Nat)
    (hp : port ≤ 65535) (rest : List Nat) :
    readAddrBin (2 :: (ip16 ++ u16be port ++ rest)) = .ok (⟨ip16String ip16, port⟩, rest) := by
  have h1 : readBytesN 16 (ip16 ++ (u16be port ++ rest)) = .ok (ip16, u16be port ++ rest) := by
    rw [← h16]
    exact readBytesN_append ip16 (u16be port ++ rest)
  have h2 : readBytesN 2 (u16be port ++ rest) = .ok (u16be port, rest) :=
    readBytesN_append (u16be port) rest
  simp [readAddrBin, List.append_assoc, h1, h2]
  show u16dec (port / 256 % 256) (port % 256) = port
  exact u16dec_u16be port hp

theorem readAddrBin_hostname (h : List Nat) (port : Nat) (hp : port ≤ 65535)
    (rest : List Nat) :
    readAddrBin (3 :: h.length :: (h ++ u16be port ++ rest)) = .ok (⟨h, port⟩, rest) := by
  have h1 : readBytesN h.length (h ++ (u16be port ++ rest)) = .ok (h, u16be port ++ rest) :=
    readBytesN_append h (u16be port ++ rest)
  have h2 : readBytesN 2 (u16be port ++ rest) = .ok (u16be port, rest) :=
    readBytesN_append (u16be port) rest
  simp [readAddrBin, List.append_assoc, h1, h2]
  show u16dec (port / 256 % 256) (port % 256) = port
  exact u16dec_u16be port hp

/-- **C2**.  For every PTCP/PUDP frame, the bytes after the kind byte are one
    address-type byte (`0x01` IPv4, `0x02` IPv6, `0x03` hostname plus a length
    byte), then 4/16/variable address bytes, then the port big-endian; and
    the binary `Proto.Read` parses exactly this layout (IPs rendered back via
    `IP.String`, hostnames verbatim), consuming nothing beyond it. -/
theorem c2_binary_addr_layout :
    (∀ (a : Addr) (t : Nat), (t = PTCP ∨ t = PUDP) →
      (parseIPGo a.host = none → a.host.length ≤ 255) →
        ∃ body, protoWriteBin ⟨t, some a, []⟩ = .ok (t :: body) ∧ binAddrShape a body) ∧
      (∀ (ip4 : List Nat), ip4.length = 4 → ∀ (t : Nat), (t = PTCP ∨ t = PUDP) →
        ∀ port, port ≤ 65535 → ∀ rest,
          protoReadBin (t :: 1 :: (ip4 ++ u16be port ++ rest)) =
            .ok (⟨t, some ⟨ip4String ip4, port⟩, []⟩, rest)) ∧
      (∀ (ip16 : List Nat), ip16.length = 16 → ∀ (t : Nat), (t = PTCP ∨ t = PUDP) →
        ∀ port, port ≤ 65535 → ∀ rest,
          protoReadBin (t :: 2 :: (ip16 ++ u16be port ++ rest)) =
            .ok (⟨t, some ⟨ip16String ip16, port⟩, []⟩, rest)) ∧
      (∀ (h : List Nat) (t : Nat), (t = PTCP ∨ t = PUDP) → ∀ port, port ≤ 65535 → ∀ rest,
        protoReadBin (t :: 3 :: h.length :: (h ++ u16be port ++ rest)) =
          .ok (⟨t, some ⟨h, port⟩, []⟩, rest)) := by
  refine ⟨?_, ?_, ?_, ?_⟩
  · intro a t ht hname
    obtain ⟨body, hw, hshape⟩ := writeAddrBin_shape a hname
    refine ⟨body, ?_, hshape⟩
    simp only [protoWriteBin, if_pos ht, hw, Except.map]
  · intro ip4 h4 t ht port hp rest
    simp only [protoReadBin, if_pos ht, readAddrBin_v4 ip4 h4 port hp rest, Except.map]
  · intro ip16 h16 t ht port hp rest
    simp only [protoReadBin, if_pos ht, readAddrBin_v6 ip16 h16 port hp rest, Except.map]
  · intro h t ht port hp rest
    simp only [protoReadBin, if_pos ht, readAddrBin_hostname h port hp rest, Except.map]

/-- Witness for C2: concrete layouts for `10.0.0.1:443` (IPv4), the 16-byte
    loopback (IPv6) and the hostname `ab` on both PTCP and PUDP kinds. -/
theorem c2_binary_addr_layout_witness :
    (∃ body,
      protoWriteBin ⟨PTCP, some ⟨[49, 48, 46, 48, 46, 48, 46, 49], 443⟩, []⟩ =
          .ok (PTCP :: body) ∧
        binAddrShape ⟨[49, 48, 46, 48, 46, 48, 46, 49], 443⟩ body) ∧
      protoReadBin (PUDP :: 1 :: ([10, 0, 0, 1] ++ u16be 443 ++ [7])) =
        .ok (⟨PUDP, some ⟨ip4String [10, 0, 0, 1], 443⟩, []⟩, [7]) ∧
      protoReadBin
          (PTCP :: 2 :: ([0, 0, 0, 0, 0, 0, 0, 0, 0, 0, 0, 0, 0, 0, 0, 1] ++ u16be 53 ++ [])) =
        .ok (⟨PTCP, some ⟨ip16String [0, 0, 0, 0, 0, 0, 0, 0, 0, 0, 0, 0, 0, 0, 0, 1], 53⟩, []⟩,
          []) ∧
      protoReadBin (PUDP :: 3 :: 2 :: ([97, 98] ++ u16be 65535 ++ [1, 2])) =
        .ok (⟨PUDP, some ⟨[97, 98], 65535⟩, []⟩, [1, 2]) :=
  ⟨c2_binary_addr_layout.1 ⟨[49, 48, 46, 48, 46, 48, 46, 49], 443⟩ PTCP (Or.inl rfl)
      (by intro hip; decide),
    c2_binary_addr_layout.2.1 [10, 0, 0, 1] rfl PUDP (Or.inr rfl) 443 (by decide) [7],
    c2_binary_addr_layout.2.2.1 [0, 0, 0, 0, 0, 0, 0, 0, 0, 0, 0, 0, 0, 0, 0, 1] rfl PTCP
      (Or.inl rfl) 53 (by decide) [],
    c2_binary_addr_layout.2.2.2 [97, 98] PUDP (Or.inr rfl) 65535 (by decide) [1, 2]⟩

/-! ## C5: the classic-BPF filter compiler (`internal/socket`)

Two variants exist in the source: a hand-written dual-stack one (raw
instructions with hand-computed jump offsets) and an IPv4-only one built with
`bpf.Assemble`.  Classic BPF conditional jumps land at `pc + 1 + jt/jf`; the
repository's own test (`validateBPFProgram`) checks exactly that bound. -/

/-- `bpf.RawInstruction`. -/
structure RawInstr where
  op : Nat
  jt : Nat
  jf : Nat
  k : Nat
deriving DecidableEq, Repr

instance : Inhabited RawInstr := ⟨⟨0, 0, 0, 0⟩⟩

instance {ε α : Type} [DecidableEq ε] [DecidableEq α] : DecidableEq (Except ε α) :=
  fun a b =>
    match a, b with
    | .ok x, .ok y =>
        if h : x = y then .isTrue (by rw [h]) else .isFalse (by simp [h])
    | .error x, .error y =>
        if h : x = y then .isTrue (by rw [h]) else .isFalse (by simp [h])
    | .ok _, .error _ => .isFalse (by simp)
    | .error _, .ok _ => .isFalse (by simp)

/-- `buildTCPDstPortFilter` (dual-stack variant): IPv4 with IHL-relative port
    load, then IPv6 at fixed offsets, with hand-written jump offsets. -/
def buildTCPDstPortFilterDS (port : Nat) : List RawInstr :=
  [⟨0x28, 0, 0, 12⟩,
   ⟨0x15, 0, 7, 0x0800⟩,
   ⟨0x30, 0, 0, 14 + 9⟩,
   ⟨0x15, 0, 14, 6⟩,
   ⟨0x30, 0, 0, 14⟩,
   ⟨0x54, 0, 0, 0x0f⟩,
   ⟨0x24, 0, 0, 4⟩,
   ⟨0x04, 0, 0, 14⟩,
   ⟨0x07, 0, 0, 0⟩,
   ⟨0x48, 0, 0, 2⟩,
   ⟨0x15, 6, 7, port⟩,
   ⟨0x15, 0, 6, 0x86dd⟩,
   ⟨0x30, 0, 0, 14 + 6⟩,
   ⟨0x15, 0, 3, 6⟩,
   ⟨0x28, 0, 0, 14 + 40 + 2⟩,
   ⟨0x15, 0, 1, port⟩,
   ⟨0x06, 0, 0, 0xffffffff⟩,
   ⟨0x06, 0, 0, 0⟩]

/-- `buildTCPSrcPortFilter` (dual-stack variant). -/
def buildTCPSrcPortFilterDS (port : Nat) : List RawInstr :=
  [⟨0x28, 0, 0, 12⟩,
   ⟨0x15, 0, 7, 0x0800⟩,
   ⟨0x30, 0, 0, 14 + 9⟩,
   ⟨0x15, 0, 14, 6⟩,
   ⟨0x30, 0, 0, 14⟩,
   ⟨0x54, 0, 0, 0x0f⟩,
   ⟨0x24, 0, 0, 4⟩,
   ⟨0x04, 0, 0, 14⟩,
   ⟨0x07, 0, 0, 0⟩,
   ⟨0x48, 0, 0, 0⟩,
   ⟨0x15, 6, 7, port⟩,
   ⟨0x15, 0, 6, 0x86dd⟩,
   ⟨0x30, 0, 0, 14 + 6⟩,
   ⟨0x15, 0, 3, 6⟩,
   ⟨0x28, 0, 0, 14 + 40⟩,
   ⟨0x15, 0, 1, port⟩,
   ⟨0x06, 0, 0, 0xffffffff⟩,
   ⟨0x06, 0, 0, 0⟩]

/-- `buildTCPFilter` (dual-stack variant). -/
def buildTCPFilterDS : List RawInstr :=
  [⟨0x28, 0, 0, 12⟩,
   ⟨0x15, 0, 3, 0x0800⟩,
   ⟨0x30, 0, 0, 14 + 9⟩,
   ⟨0x15, 4, 5, 6⟩,
   ⟨0x15, 0, 4, 0x86dd⟩,
   ⟨0x30, 0, 0, 14 + 6⟩,
   ⟨0x15, 0, 2, 6⟩,
   ⟨0x06, 0, 0, 0xffffffff⟩,
   ⟨0x06, 0, 0, 0⟩]

/-- `buildEtherDstFilter` (dual-stack variant): compare the first two and the
    last four destination-MAC bytes. -/
def buildEtherDstFilterDS (mac : List Nat) : List RawInstr :=
  [⟨0x28, 0, 0, 0⟩,
   ⟨0x15, 0, 4, mac.get! 0 * 256 + mac.get! 1⟩,
   ⟨0x20, 0, 0, 2⟩,
   ⟨0x15, 0, 2,
     mac.get! 2 * 16777216 + mac.get! 3 * 65536 + mac.get! 4 * 256 + mac.get! 5⟩,
   ⟨0x06, 0, 0, 0xffffffff⟩,
   ⟨0x06, 0, 0, 0⟩]

/-- `strings.ToLower` on ASCII bytes. -/
def toLowerByte (b : Nat) : Nat := if 65 ≤ b ∧ b ≤ 90 then b + 32 else b

/-- ASCII whitespace (the `strings.TrimSpace` cutset restricted to ASCII). -/
def isSpaceByte (b : Nat) : Bool :=
  b = 32 || b = 9 || b = 10 || b = 11 || b = 12 || b = 13

/-- `strings.TrimSpace` on bytes. -/
def trimSpace (l : List Nat) : List Nat :=
  ((l.dropWhile isSpaceByte).reverse.dropWhile isSpaceByte).reverse

/-- `strings.HasPrefix` on bytes. -/
def startsWithBytes : List Nat → List Nat → Bool
  | _, [] => true
  | [], _ :: _ => false
  | x :: xs, y :: ys => x = y && startsWithBytes xs ys

/-- `"tcp and dst port "`. -/
def tcpDstPortPre : List Nat :=
  [116, 99, 112, 32, 97, 110, 100, 32, 100, 115, 116, 32, 112, 111, 114, 116, 32]

/-- `"tcp and src port "`. -/
def tcpSrcPortPre : List Nat :=
  [116, 99, 112, 32, 97, 110, 100, 32, 115, 114, 99, 32, 112, 111, 114, 116, 32]

/-- `"ether dst "`. -/
def etherDstPre : List Nat := [101, 116, 104, 101, 114, 32, 100, 115, 116, 32]

/-- One two-hex-digit MAC octet. -/
def parseMACOctet (l : List Nat) : Option Nat :=
  match l with
  | [a, b] => (parseHexDigit a).bind fun x => (parseHexDigit b).map fun y => x * 16 + y
  | _ => none

/-- `net.ParseMAC`, colon-separated 6-octet form. -/
def parseMAC (l : List Nat) : Option (List Nat) :=
  match splitOnByte 58 l with
  | [o0, o1, o2, o3, o4, o5] =>
      (parseMACOctet o0).bind fun b0 =>
        (parseMACOctet o1).bind fun b1 =>
          (parseMACOctet o2).bind fun b2 =>
            (parseMACOctet o3).bind fun b3 =>
              (parseMACOctet o4).bind fun b4 =>
                (parseMACOctet o5).map fun b5 => [b0, b1, b2, b3, b4, b5]
  | _ => none

/-- Compiler errors. -/
inductive BPFErr where
  | invalidPort
  | invalidMAC
  | unsupportedFilter
deriving DecidableEq, Repr

/-- `compileBPFFilter`, dual-stack variant: the four supported grammar forms;
    anything else is an error. -/
def compileBPFFilterDS (filter : List Nat) : Except BPFErr (List RawInstr) :=
  let f := trimSpace (filter.map toLowerByte)
  if startsWithBytes f tcpDstPortPre then
    match parseDecimal (f.drop tcpDstPortPre.length) with
    | some port =>
        if 1 ≤ port ∧ port ≤ 65535 then .ok (buildTCPDstPortFilterDS port)
        else .error .invalidPort
    | none => .error .invalidPort
  else if startsWithBytes f tcpSrcPortPre then
    match parseDecimal (f.drop tcpSrcPortPre.length) with
    | some port =>
        if 1 ≤ port ∧ port ≤ 65535 then .ok (buildTCPSrcPortFilterDS port)
        else .error .invalidPort
    | none => .error .invalidPort
  else if f = [116, 99, 112] then .ok buildTCPFilterDS
  else if startsWithBytes f etherDstPre then
    match parseMAC (f.drop etherDstPre.length) with
    | some mac => .ok (buildEtherDstFilterDS mac)
    | none => .error .invalidMAC
  else .error .unsupportedFilter

/-- The repository's own well-formedness check (`validateBPFProgram` in the
    compiler's test): every conditional jump's true and false targets
    `i + 1 + jt` / `i + 1 + jf` lie inside the program, unconditional jumps
    likewise, and the program ends with a RET. -/
def validateBPFProgram (prog : List RawInstr) : Bool :=
  if prog = [] then true
  else
    ((List.range prog.length).all fun i =>
      let ins := prog.get! i
      if ins.op &&& 0x07 = 0x05 then
        if ins.op &&& 0xf0 ≠ 0 then
          decide (i + 1 + ins.jt < prog.length) && decide (i + 1 + ins.jf < prog.length)
        else decide (i + 1 + ins.k < prog.length)
      else true)
      && (prog.getLast!.op &&& 0x07 = 0x06)

/-- **C5** (code bug, dual-stack variant): compiling the supported filter
    string `"tcp and dst port 443"` yields an 18-instruction program whose
    instruction 3 jumps to index 18 on its false branch — out of bounds — so
    the repository's own `validateBPFProgram` rejects it (and the kernel
    would refuse to attach it).  The spec's "all jumps in bounds" invariant
    is the documented intent; the hand-computed offsets are off by one. -/
theorem c5_dualstack_bpf_jump_out_of_bounds :
    compileBPFFilterDS
        [116, 99, 112, 32, 97, 110, 100, 32, 100, 115, 116, 32, 112, 111, 114, 116, 32,
          52, 52, 51]
        = .ok (buildTCPDstPortFilterDS 443) ∧
      (buildTCPDstPortFilterDS 443).length = 18 ∧
      ((buildTCPDstPortFilterDS 443).get! 3).op &&& 0x07 = 0x05 ∧
      3 + 1 + ((buildTCPDstPortFilterDS 443).get! 3).jf = 18 ∧
      validateBPFProgram (buildTCPDstPortFilterDS 443) = false := by
  refine ⟨?_, by decide, by decide, by decide, ?_⟩
  · decide
  · decide

/-- The assembler-based IPv4-only `buildTCPPortFilter` (the image of the
    source's high-level program under `bpf.Assemble`). -/
def buildTCPPortFilterA (port : Nat) (isDst : Bool) : List RawInstr :=
  [⟨0x28, 0, 0, 12⟩,
   ⟨0x15, 0, 5, 0x0800⟩,
   ⟨0x30, 0, 0, 14 + 9⟩,
   ⟨0x15, 0, 3, 6⟩,
   ⟨0xb1, 0, 0, 14⟩,
   ⟨0x48, 0, 0, 14 + (if isDst then 2 else 0)⟩,
   ⟨0x15, 1, 0, port⟩,
   ⟨0x06, 0, 0, 0⟩,
   ⟨0x06, 0, 0, 0xffffffff⟩]

/-- The IPv4-only variant's programs all pass the repository's validator. -/
theorem assembled_tcp_port_filter_valid (port : Nat) (isDst : Bool) :
    validateBPFProgram (buildTCPPortFilterA port isDst) = true := by
  cases isDst <;>
    · simp [validateBPFProgram, buildTCPPortFilterA, List.range, List.range.loop,
        List.getLast!]
      decide

/-! ## C8: configuration validation (`internal/conf`) -/

/-- One tag per distinct validation error message. -/
inductive ConfErr where
  | protocolInvalid
  | connRange
  | kcpRequired
  | quicRequired
  | udpRequired
  | autoTooFew
  | quicKeyRequired
  | quicMaxStreams
  | quicIdleTimeout
  | quicCertPair
  | kcpModeInvalid
  | kcpBlockKey
  | udpBlockInvalid
  | udpBlockKey
  | udpSmuxbuf
  | udpStreambuf
deriving DecidableEq, Repr

/-- `conf.QUIC` (validation-relevant fields; durations in nanoseconds). -/
structure QUICConf where
  key : String
  maxStreams : Int
  idleTimeout : Int
  certFile : String
  keyFile : String
deriving DecidableEq, Repr

/-- `QUIC.validate`. -/
def quicValidate (q : QUICConf) : List ConfErr :=
  (if q.key.length = 0 ∧ q.certFile = "" then [ConfErr.quicKeyRequired] else []) ++
    (if q.maxStreams < 1 ∨ q.maxStreams > 65535 then [ConfErr.quicMaxStreams] else []) ++
    (if q.idleTimeout < 1000000000 ∨ q.idleTimeout > 300000000000 then
      [ConfErr.quicIdleTimeout] else []) ++
    (if (q.certFile = "") ≠ (q.keyFile = "") then [ConfErr.quicCertPair] else [])

/-- The supported block-cipher names (`conf.ValidBlocks`). -/
def ValidBlocks : List String :=
  ["aes", "aes-128", "aes-128-gcm", "aes-192", "salsa20", "blowfish", "twofish",
    "cast5", "3des", "tea", "xtea", "xor", "sm4", "none", "null"]

/-- `conf.BlockKeySize`: 0 = use the full derived key, -1 = unknown block. -/
def BlockKeySize (block : String) : Int :=
  if block = "aes" then 0
  else if block = "aes-128" then 16
  else if block = "aes-128-gcm" then 16
  else if block = "aes-192" then 24
  else if block = "salsa20" then 0
  else if block = "blowfish" then 0
  else if block = "twofish" then 0
  else if block = "cast5" then 16
  else if block = "3des" then 24
  else if block = "tea" then 16
  else if block = "xtea" then 16
  else if block = "xor" then 0
  else if block = "sm4" then 16
  else if block = "none" then 0
  else if block = "null" then 0
  else -1

/-- `conf.IsNullBlock`. -/
def IsNullBlock (block : String) : Bool := block = "none" || block = "null"

/-- `conf.ValidateBlockAndKey` error cases. -/
inductive BlockKeyErr where
  | unsupportedBlock
  | keyRequired
deriving DecidableEq, Repr

/-- `conf.ValidateBlockAndKey`. -/
def validateBlockAndKey (block key : String) : Option BlockKeyErr :=
  if BlockKeySize block = -1 then some .unsupportedBlock
  else if ¬ IsNullBlock block ∧ key = "" then some .keyRequired
  else none

/-- `conf.UDP` (validation-relevant fields). -/
structure UDPConf where
  key : String
  block : String
  smuxbuf : Int
  streambuf : Int
deriving DecidableEq, Repr

/-- `UDP.validate` (the error-producing checks; key derivation is a side
    effect with no error path). -/
def udpValidate (u : UDPConf) : List ConfErr :=
  (if u.block ∈ ValidBlocks then [] else [ConfErr.udpBlockInvalid]) ++
    (match validateBlockAndKey u.block u.key with
      | some _ => [ConfErr.udpBlockKey]
      | none => []) ++
    (if u.smuxbuf < 1024 then [ConfErr.udpSmuxbuf] else []) ++
    (if u.streambuf < 1024 then [ConfErr.udpStreambuf] else [])

/-- Modelled from the spec: `conf.KCP` and `KCP.validate` (the KCP config
    file is absent from `src/`); the spec (§4.6, §6) requires a valid mode
    preset and a key for non-null block ciphers, and none of its checks
    concern `transport.conn` or the QUIC fields. -/
structure KCPConf where
  mode : String
  block : String
  key : String
deriving DecidableEq, Repr

/-- Modelled from the spec: `KCP.validate`. -/
def kcpValidate (k : KCPConf) : List ConfErr :=
  (if k.mode ∈ ["fast", "fast2", "fast3", "fast4", "normal", "manual"] then []
    else [ConfErr.kcpModeInvalid]) ++
    (if ¬ IsNullBlock k.block ∧ k.key = "" then [ConfErr.kcpBlockKey] else [])

/-- `conf.Transport` (validation-relevant fields). -/
structure TransportConf where
  protocol : String
  conn : Int
  kcp : Option KCPConf
  quic : Option QUICConf
  udp : Option UDPConf
deriving DecidableEq, Repr

/-- `Transport.validate`. -/
def transportValidate (t : TransportConf) : List ConfErr :=
  (if t.protocol ∈ ["kcp", "quic", "udp", "auto"] then [] else [ConfErr.protocolInvalid]) ++
    (if t.conn < 1 ∨ t.conn > 256 then [ConfErr.connRange] else []) ++
    (if t.protocol = "kcp" then
      match t.kcp with
      | none => [ConfErr.kcpRequired]
      | some k => kcpValidate k
    else if t.protocol = "quic" then
      match t.quic with
      | none => [ConfErr.quicRequired]
      | some q => quicValidate q
    else if t.protocol = "udp" then
      match t.udp with
      | none => [ConfErr.udpRequired]
      | some u => udpValidate u
    else if t.protocol = "auto" then
      (match t.kcp with | some k => kcpValidate k | none => []) ++
        (match t.quic with | some q => quicValidate q | none => []) ++
        (match t.udp with | some u => udpValidate u | none => []) ++
        (if (if t.kcp.isSome then 1 else 0) + (if t.quic.isSome then 1 else 0) +
            (if t.udp.isSome then (1 : Nat) else 0) < 2 then
          [ConfErr.autoTooFew] else [])
    else [])

theorem connRange_not_mem_kcpValidate (k : KCPConf) :
    ¬ ConfErr.connRange ∈ kcpValidate k := by
  rw [kcpValidate]
  split_ifs <;> simp

theorem connRange_not_mem_quicValidate (q : QUICConf) :
    ¬ ConfErr.connRange ∈ quicValidate q := by
  rw [quicValidate]
  split_ifs <;> simp

theorem connRange_not_mem_udpValidate (u : UDPConf) :
    ¬ ConfErr.connRange ∈ udpValidate u := by
  rw [udpValidate]
  split_ifs <;> (try split) <;> simp_all

theorem connRange_not_mem_branch (t : TransportConf) :
    ¬ ConfErr.connRange ∈
      (if t.protocol = "kcp" then
        match t.kcp with
        | none => [ConfErr.kcpRequired]
        | some k => kcpValidate k
      else if t.protocol = "quic" then
        match t.quic with
        | none => [ConfErr.quicRequired]
        | some q => quicValidate q
      else if t.protocol = "udp" then
        match t.udp with
        | none => [ConfErr.udpRequired]
        | some u => udpValidate u
      else if t.protocol = "auto" then
        (match t.kcp with | some k => kcpValidate k | none => []) ++
          (match t.quic with | some q => quicValidate q | none => []) ++
          (match t.udp with | some u => udpValidate u | none => []) ++
          (if (if t.kcp.isSome then 1 else 0) + (if t.quic.isSome then 1 else 0) +
              (if t.udp.isSome then (1 : Nat) else 0) < 2 then
            [ConfErr.autoTooFew] else [])
      else []) := by
  obtain ⟨proto, conn, kcp, quic, udp⟩ := t
  simp only
  by_cases h1 : proto = "kcp"
  · rw [if_pos h1]
    cases kcp with
    | none => simp
    | some k => exact connRange_not_mem_kcpValidate k
  rw [if_neg h1]
  by_cases h2 : proto = "quic"
  · rw [if_pos h2]
    cases quic with
    | none => simp
    | some q => exact connRange_not_mem_quicValidate q
  rw [if_neg h2]
  by_cases h3 : proto = "udp"
  · rw [if_pos h3]
    cases udp with
    | none => simp
    | some u => exact connRange_not_mem_udpValidate u
  rw [if_neg h3]
  by_cases h4 : proto = "auto"
  · rw [if_pos h4]
    intro hmem
    rcases List.mem_append.mp hmem with hmem | hmem
    · rcases List.mem_append.mp hmem with hmem | hmem
      · rcases List.mem_append.mp hmem with hmem | hmem
        · cases kcp with
          | none => simp at hmem
          | some k => exact connRange_not_mem_kcpValidate k hmem
        · cases quic with
          | none => simp at hmem
          | some q => exact connRange_not_mem_quicValidate q hmem
      · cases udp with
        | none => simp at hmem
        | some u => exact connRange_not_mem_udpValidate u hmem
    · revert hmem
      split_ifs <;> simp
  · rw [if_neg h4]
    simp

/-- **C8**.  Validation adds the conn-range error exactly when `conn` lies
    outside `[1, 256]`, the QUIC max-streams error exactly when
    `max_streams` lies outside `[1, 65535]`, the QUIC idle-timeout error
    exactly when `idle_timeout` lies outside `[1 s, 5 m]`, and the QUIC
    errors surface through `Transport.validate` when the QUIC config is the
    active one. -/
theorem c8_validation_ranges :
    (∀ t : TransportConf,
      ConfErr.connRange ∈ transportValidate t ↔ (t.conn < 1 ∨ t.conn > 256)) ∧
      (∀ q : QUICConf,
        ConfErr.quicMaxStreams ∈ quicValidate q ↔
          (q.maxStreams < 1 ∨ q.maxStreams > 65535)) ∧
      (∀ q : QUICConf,
        ConfErr.quicIdleTimeout ∈ quicValidate q ↔
          (q.idleTimeout < 1000000000 ∨ q.idleTimeout > 300000000000)) ∧
      (∀ (t : TransportConf) (q : QUICConf), t.protocol = "quic" → t.quic = some q →
        (ConfErr.quicMaxStreams ∈ transportValidate t ↔
            (q.maxStreams < 1 ∨ q.maxStreams > 65535)) ∧
          (ConfErr.quicIdleTimeout ∈ transportValidate t ↔
            (q.idleTimeout < 1000000000 ∨ q.idleTimeout > 300000000000))) := by
  have hq1 : ∀ q : QUICConf,
      ConfErr.quicMaxStreams ∈ quicValidate q ↔ (q.maxStreams < 1 ∨ q.maxStreams > 65535) := by
    intro q
    rw [quicValidate]
    constructor
    · intro hmem
      by_contra hcon
      rw [if_neg hcon] at hmem
      split_ifs at hmem <;> simp_all
    · intro hcon
      rw [if_pos hcon]
      simp
  have hq2 : ∀ q : QUICConf,
      ConfErr.quicIdleTimeout ∈ quicValidate q ↔
        (q.idleTimeout < 1000000000 ∨ q.idleTimeout > 300000000000) := by
    intro q
    rw [quicValidate]
    constructor
    · intro hmem
      by_contra hcon
      rw [if_neg hcon] at hmem
      split_ifs at hmem <;> simp_all
    · intro hcon
      rw [if_pos hcon]
      simp
  refine ⟨?_, hq1, hq2, ?_⟩
  · intro t
    rw [transportValidate]
    constructor
    · intro hmem
      by_contra hcon
      rw [if_neg hcon] at hmem
      simp only [List.mem_append] at hmem
      rcases hmem with (hmem | hmem) | hmem
      · split_ifs at hmem <;> simp_all
      · simp at hmem
      · exact connRange_not_mem_branch t hmem
    · intro hcon
      rw [if_pos hcon]
      simp
  · intro t q hproto hquic
    have hbranch : transportValidate t =
        (if t.conn < 1 ∨ t.conn > 256 then [ConfErr.connRange] else []) ++ quicValidate q := by
      rw [transportValidate, hquic]
      rw [if_pos (show t.protocol ∈ ["kcp", "quic", "udp", "auto"] by rw [hproto]; decide),
        if_neg (show ¬ t.protocol = "kcp" by rw [hproto]; decide), if_pos hproto]
      simp
    constructor
    · rw [hbranch]
      simp only [List.mem_append]
      rw [← hq1 q]
      constructor
      · intro hmem
        rcases hmem with hmem | hmem
        · split_ifs at hmem <;> simp_all
        · exact hmem
      · intro hmem
        exact Or.inr hmem
    · rw [hbranch]
      simp only [List.mem_append]
      rw [← hq2 q]
      constructor
      · intro hmem
        rcases hmem with hmem | hmem
        · split_ifs at hmem <;> simp_all
        · exact hmem
      · intro hmem
        exact Or.inr hmem

/-- Witness for C8: conn 257 and conn 1; max_streams 65536 and 256;
    idle_timeout 0.5 s and 30 s, through concrete configurations. -/
theorem c8_validation_ranges_witness :
    (ConfErr.connRange ∈
        transportValidate ⟨"quic", 257, none, some ⟨"k", 256, 30000000000, "", ""⟩, none⟩ ↔
      ((257 : Int) < 1 ∨ (257 : Int) > 256)) ∧
      (ConfErr.quicMaxStreams ∈ quicValidate ⟨"k", 65536, 30000000000, "", ""⟩ ↔
        ((65536 : Int) < 1 ∨ (65536 : Int) > 65535)) ∧
      (ConfErr.quicIdleTimeout ∈ quicValidate ⟨"k", 256, 500000000, "", ""⟩ ↔
        ((500000000 : Int) < 1000000000 ∨ (500000000 : Int) > 300000000000)) ∧
      (ConfErr.quicMaxStreams ∈
          transportValidate ⟨"quic", 1, none, some ⟨"k", 256, 30000000000, "", ""⟩, none⟩ ↔
        ((256 : Int) < 1 ∨ (256 : Int) > 65535)) :=
  ⟨c8_validation_ranges.1 ⟨"quic", 257, none, some ⟨"k", 256, 30000000000, "", ""⟩, none⟩,
    c8_validation_ranges.2.1 ⟨"k", 65536, 30000000000, "", ""⟩,
    c8_validation_ranges.2.2.1 ⟨"k", 256, 500000000, "", ""⟩,
    (c8_validation_ranges.2.2.2 ⟨"quic", 1, none, some ⟨"k", 256, 30000000000, "", ""⟩, none⟩
      ⟨"k", 256, 30000000000, "", ""⟩ rfl rfl).1⟩

/-! ## C6: the client UDP stream pool under concurrent `Client.UDP` calls

`Client.UDP(lAddr, tAddr)` (in `internal/client/udp.go`) does a lock-free
`Load` on the pool, opens a stream and writes the `PUDP` header on a miss,
then races through `LoadOrStore`; the loser closes its own stream and adopts
the winner's.  With identical arguments every invocation uses the same key
(`hash.AddrPair` is a function of the arguments), so the race is modelled on
a single pool cell.  Callers are numbered; caller `i`'s freshly opened
stream is stream `i` (`newStrm` returns distinct streams).  The `Load` and
`LoadOrStore` calls of `sync.Map` are the atomic steps. -/

/-- The phase of one `Client.UDP` caller: before its fast-path `Load`, after
    opening its own stream (before `LoadOrStore`), or returned — carrying the
    returned stream, the `is_new` flag, the stream it opened (if any) and
    whether it closed that stream. -/
inductive CallerState where
  | start
  | opened
  | done (ret : Nat) (isNew : Bool) (own : Option Nat) (closedOwn : Bool)
deriving DecidableEq, Repr

/-- The pool cell for the one key in play, plus every caller's phase. -/
structure UDPPoolState where
  pool : Option Nat
  callers : List CallerState
deriving DecidableEq, Repr

/-- One atomic step of caller `i`: its fast-path `Load`, or its
    `LoadOrStore` (store on miss, adopt-and-close-own on a concurrent hit). -/
def stepCaller (pool : Option Nat) (i : Nat) (c : CallerState) :
    Option Nat × CallerState :=
  match c with
  | .start =>
      match pool with
      | some w => (pool, .done w false none false)
      | none => (pool, .opened)
  | .opened =>
      match pool with
      | some w => (pool, .done w false (some i) true)
      | none => (some i, .done i true (some i) false)
  | .done r n o cl => (pool, .done r n o cl)

/-- Run one scheduled step (out-of-range indices are no-ops). -/
def stepPool (s : UDPPoolState) (i : Nat) : UDPPoolState :=
  match s.callers.get? i with
  | none => s
  | some c =>
      let pc := stepCaller s.pool i c
      { pool := pc.1, callers := s.callers.set i pc.2 }

/-- Run a schedule (a list of caller indices). -/
def runSched (s : UDPPoolState) : List Nat → UDPPoolState
  | [] => s
  | i :: rest => runSched (stepPool s i) rest

/-- `n` concurrent callers, empty pool. -/
def initPoolState (n : Nat) : UDPPoolState :=
  { pool := none, callers := List.replicate n .start }

/-- A caller has returned. -/
def IsDone : CallerState → Prop
  | .done _ _ _ _ => True
  | _ => False

instance : DecidablePred IsDone := fun c => by
  unfold IsDone
  cases c <;> infer_instance

/-- A loser is in one of the legal post-states for winner `w`. -/
def LoserOK (w i : Nat) : CallerState → Prop := fun c =>
  c = .start ∨ c = .opened ∨ c = .done w false none false ∨
    c = .done w false (some i) true

/-- Reachability invariant of the pool model: an empty cell means nobody has
    returned; a filled cell `w` means caller `w` stored its own stream `w`
    (the unique `is_new` observer) and everyone else is untouched, served
    from the cell, or a race loser that closed its own stream. -/
def PoolInv (s : UDPPoolState) : Prop :=
  (s.pool = none → ∀ c ∈ s.callers, c = .start ∨ c = .opened) ∧
    ∀ w, s.pool = some w →
      s.callers.get? w = some (.done w true (some w) false) ∧
        ∀ i, i ≠ w → ∀ c, s.callers.get? i = some c → LoserOK w i c

theorem poolInv_init (n : Nat) : PoolInv (initPoolState n) := by
  constructor
  · intro _ c hc
    exact Or.inl (List.eq_of_mem_replicate hc)
  · intro w hw
    exact absurd hw (by simp [initPoolState])

theorem poolInv_set_loser (callers : List CallerState) (w i : Nat) (hiw : i ≠ w)
    (hwin : callers.get? w = some (.done w true (some w) false))
    (hlose : ∀ j, j ≠ w → ∀ c, callers.get? j = some c → LoserOK w j c)
    (v : CallerState) (hv : LoserOK w i v) :
    PoolInv ⟨some w, callers.set i v⟩ := by
  constructor
  · intro hcon
    exact absurd hcon (by simp)
  · intro w2 hw2
    simp only [Option.some.injEq] at hw2
    subst hw2
    constructor
    · show (callers.set i v).get? w = _
      rw [List.get?_set_ne v callers hiw]
      exact hwin
    · intro j hj c' hc'
      by_cases hji : j = i
      · subst hji
        rw [List.get?_set_eq] at hc'
        cases hget : callers.get? j with
        | none => rw [hget] at hc'; exact absurd hc' (by simp)
        | some c0 =>
          rw [hget] at hc'
          have : c' = v := by
            simpa using hc'.symm
          rw [this]
          exact hv
      · rw [List.get?_set_ne v callers (fun he => hji he.symm)] at hc'
        exact hlose j hj c' hc'

theorem poolInv_step (s : UDPPoolState) (i : Nat) (h : PoolInv s) :
    PoolInv (stepPool s i) := by
  rw [stepPool]
  cases hget : s.callers.get? i with
  | none => exact h
  | some c =>
    simp only
    have hmem : c ∈ s.callers := List.get?_mem hget
    have hset_here : ∀ v : CallerState, (s.callers.set i v).get? i = some v := by
      intro v
      rw [List.get?_set_eq, hget]
      rfl
    cases hpool : s.pool with
    | none =>
      have hall := h.1 hpool
      rcases hall c hmem with hc | hc
      · -- fast-path Load on an empty cell: the caller proceeds to open a stream
        subst hc
        simp only [stepCaller]
        refine ⟨?_, ?_⟩
        · intro _ c2 hc2
          rcases List.mem_or_eq_of_mem_set hc2 with hmem2 | rfl
          · exact hall c2 hmem2
          · exact Or.inr rfl
        · intro w hw
          exact absurd hw (by simp)
      · -- LoadOrStore on an empty cell: caller i stores its own stream i
        subst hc
        simp only [stepCaller]
        refine ⟨?_, ?_⟩
        · intro hnone
          exact absurd hnone (by simp)
        · intro w hw
          simp only [Option.some.injEq] at hw
          subst hw
          refine ⟨hset_here _, ?_⟩
          intro j hj c2 hc2
          rw [List.get?_set_ne _ s.callers (fun he => hj he.symm)] at hc2
          rcases hall c2 (List.get?_mem hc2) with h2 | h2
          · exact Or.inl h2
          · exact Or.inr (Or.inl h2)
    | some w =>
      obtain ⟨hwin, hlose⟩ := h.2 w hpool
      by_cases hiw : i = w
      · subst hiw
        have hc : c = .done i true (some i) false := by
          rw [hget] at hwin
          exact (Option.some.injEq _ _).mp hwin
        subst hc
        simp only [stepCaller]
        refine ⟨?_, ?_⟩
        · intro hcon
          exact absurd hcon (by simp)
        · intro w2 hw2
          simp only [Option.some.injEq] at hw2
          subst hw2
          refine ⟨hset_here _, ?_⟩
          intro j hj c2 hc2
          rw [List.get?_set_ne _ s.callers (fun he => hj he.symm)] at hc2
          exact hlose j hj c2 hc2
      · have hok := hlose i hiw c hget
        rcases hok with hc | hc | hc | hc <;> subst hc <;> simp only [stepCaller] <;>
          exact poolInv_set_loser s.callers w i hiw hwin hlose _ (by
            simp [LoserOK])

theorem poolInv_run (s : UDPPoolState) (sched : List Nat) (h : PoolInv s) :
    PoolInv (runSched s sched) := by
  induction sched generalizing s with
  | nil => exact h
  | cons i rest ih => exact ih _ (poolInv_step s i h)

theorem runSched_length (s : UDPPoolState) (sched : List Nat) :
    (runSched s sched).callers.length = s.callers.length := by
  induction sched generalizing s with
  | nil => rfl
  | cons i rest ih =>
    rw [runSched, ih]
    rw [stepPool]
    cases hget : s.callers.get? i with
    | none => rfl
    | some c => simp [List.length_set]

/-- What a finished caller returned. -/
def retOf : CallerState → Option Nat
  | .done r _ _ _ => some r
  | _ => none

/-- Whether a finished caller observed `is_new = true`. -/
def isNewOf : CallerState → Bool
  | .done _ n _ _ => n
  | _ => false

/-- The stream a caller opened itself, if any. -/
def ownOf : CallerState → Option Nat
  | .done _ _ o _ => o
  | _ => none

/-- Whether the caller closed the stream it opened. -/
def closedOwnOf : CallerState → Bool
  | .done _ _ _ cl => cl
  | _ => false

/-- **C6**.  For any number `n ≥ 1` of concurrent `Client.UDP` calls with
    identical arguments (hence one pool key) and any interleaving of their
    atomic `Load`/`LoadOrStore` steps that lets every caller return: the pool
    ends with exactly one stored stream `w`; caller `w` is the unique caller
    observing `is_new = true` (and it stored the stream it opened); every
    caller receives that same stream `w`; and every caller that opened a
    stream other than `w` (a load-or-store race loser) closed it. -/
theorem c6_udp_pool_single_stream (n : Nat) (hn : 1 ≤ n) (sched : List Nat)
    (hdone : ∀ c ∈ (runSched (initPoolState n) sched).callers, IsDone c) :
    ∃ w, (runSched (initPoolState n) sched).pool = some w ∧
      (runSched (initPoolState n) sched).callers.get? w =
          some (.done w true (some w) false) ∧
        (∀ i c, (runSched (initPoolState n) sched).callers.get? i = some c →
          (isNewOf c = true ↔ i = w)) ∧
        (∀ c ∈ (runSched (initPoolState n) sched).callers, retOf c = some w) ∧
        (∀ c ∈ (runSched (initPoolState n) sched).callers,
          ∀ st, ownOf c = some st → st ≠ w → closedOwnOf c = true) := by
  have hinv := poolInv_run (initPoolState n) sched (poolInv_init n)
  have hlen : (runSched (initPoolState n) sched).callers.length = n := by
    rw [runSched_length]
    simp [initPoolState]
  cases hpool : (runSched (initPoolState n) sched).pool with
  | none =>
    exfalso
    have hall := hinv.1 hpool
    have h0 : ∃ c, (runSched (initPoolState n) sched).callers.get? 0 = some c := by
      cases hg : (runSched (initPoolState n) sched).callers.get? 0 with
      | none =>
        rw [List.get?_eq_none] at hg
        omega
      | some c => exact ⟨c, rfl⟩
    obtain ⟨c, hc⟩ := h0
    have hmem := List.get?_mem hc
    rcases hall c hmem with rfl | rfl
    · exact hdone _ hmem
    · exact hdone _ hmem
  | some w =>
    obtain ⟨hwin, hlose⟩ := hinv.2 w hpool
    refine ⟨w, rfl, hwin, ?_, ?_, ?_⟩
    · intro i c hc
      by_cases hiw : i = w
      · subst hiw
        rw [hwin] at hc
        simp only [Option.some.injEq] at hc
        subst hc
        simp [isNewOf]
      · rcases hlose i hiw c hc with rfl | rfl | rfl | rfl
        · exact absurd (hdone _ (List.get?_mem hc)) (by simp [IsDone])
        · exact absurd (hdone _ (List.get?_mem hc)) (by simp [IsDone])
        · simp [isNewOf, hiw]
        · simp [isNewOf, hiw]
    · intro c hmem
      obtain ⟨i, hi⟩ := List.mem_iff_get?.mp hmem
      by_cases hiw : i = w
      · subst hiw
        rw [hwin] at hi
        simp only [Option.some.injEq] at hi
        subst hi
        rfl
      · rcases hlose i hiw c hi with rfl | rfl | rfl | rfl
        · exact absurd (hdone _ hmem) (by simp [IsDone])
        · exact absurd (hdone _ hmem) (by simp [IsDone])
        · rfl
        · rfl
    · intro c hmem st hown hst
      obtain ⟨i, hi⟩ := List.mem_iff_get?.mp hmem
      by_cases hiw : i = w
      · subst hiw
        rw [hwin] at hi
        simp only [Option.some.injEq] at hi
        subst hi
        simp [ownOf] at hown
        exact absurd hown.symm hst
      · rcases hlose i hiw c hi with rfl | rfl | rfl | rfl
        · exact absurd (hdone _ hmem) (by simp [IsDone])
        · exact absurd (hdone _ hmem) (by simp [IsDone])
        · simp [ownOf] at hown
        · rfl

/-- Witness for C6: two callers, scheduled so that both miss the fast path,
    caller 0 wins the `LoadOrStore` and caller 1 closes its own stream. -/
theorem c6_udp_pool_single_stream_witness :
    ∃ w, (runSched (initPoolState 2) [0, 1, 0, 1]).pool = some w ∧
      (runSched (initPoolState 2) [0, 1, 0, 1]).callers.get? w =
          some (.done w true (some w) false) ∧
        (∀ i c, (runSched (initPoolState 2) [0, 1, 0, 1]).callers.get? i = some c →
          (isNewOf c = true ↔ i = w)) ∧
        (∀ c ∈ (runSched (initPoolState 2) [0, 1, 0, 1]).callers, retOf c = some w) ∧
        (∀ c ∈ (runSched (initPoolState 2) [0, 1, 0, 1]).callers,
          ∀ st, ownOf c = some st → st ≠ w → closedOwnOf c = true) :=
  c6_udp_pool_single_stream 2 (by decide) [0, 1, 0, 1] (by decide)

/-! ## C9: server UDP dispatch and the shared-UDP connection pool

`Server.handleUDPProtocol` sends port-53 streams to a dedicated per-stream
socket (`handleUDPDirect`) and every other stream to the shared sink
(`handleUDP` via `serverUDPPool.getOrCreate`).  The pool's mutex serialises
the create path (with a double-check after the lock), so `getOrCreate` and
`release` are the atomic steps of the model; sockets are numbered as they
are dialed. -/

/-- How the server forwards a UDP stream. -/
inductive UDPMode where
  | direct
  | shared
deriving DecidableEq, Repr

/-- `Server.handleUDPProtocol` dispatch: DNS (port 53) gets a dedicated
    per-stream socket, everything else the shared sink. -/
def handleUDPDispatch (a : Addr) : UDPMode :=
  if a.port = 53 then .direct else .shared

/-- One shared UDP connection (`sharedUDPConn`): its socket id, target
    address, reference count, whether the socket is open, and whether it is
    still stored in the pool map. -/
structure ServerConn where
  id : Nat
  addr : Nat
  refCount : Int
  isOpen : Bool
  pooled : Bool
deriving DecidableEq, Repr

/-- The pool (`udpConnPool`): all sockets ever dialed, and the next id. -/
structure ServerPoolState where
  conns : List ServerConn
  nextId : Nat
deriving DecidableEq, Repr

/-- A pool operation: `getOrCreate addr` or `release` of a held connection. -/
inductive PoolEvent where
  | getOrCreate (addr : Nat)
  | release (id : Nat)
deriving DecidableEq, Repr

/-- One atomic pool operation.  `getOrCreate` bumps the refcount of the
    pooled connection for `addr` or — only when none is pooled — dials a new
    socket and stores it; `release` decrements and, at zero, removes the
    connection from the pool and closes its socket. -/
def serverPoolStep (s : ServerPoolState) : PoolEvent → ServerPoolState
  | .getOrCreate addr =>
      match s.conns.find? (fun c => c.pooled && c.addr == addr) with
      | some c =>
          { s with conns := s.conns.map fun c2 =>
              if c2.id = c.id then { c2 with refCount := c2.refCount + 1 } else c2 }
      | none =>
          { conns := s.conns ++ [⟨s.nextId, addr, 1, true, true⟩], nextId := s.nextId + 1 }
  | .release id =>
      { s with conns := s.conns.map fun c =>
          if c.id = id then
            if c.refCount - 1 = 0 then { c with refCount := 0, isOpen := false, pooled := false }
            else { c with refCount := c.refCount - 1 }
          else c }

/-- Run a sequence of pool operations. -/
def runServerPool (s : ServerPoolState) : List PoolEvent → ServerPoolState
  | [] => s
  | e :: rest => runServerPool (serverPoolStep s e) rest

/-- The empty pool. -/
def initServerPool : ServerPoolState := ⟨[], 0⟩

/-- Pool invariant: at most one pooled connection per target address, and
    every open socket is still pooled. -/
def ServerPoolInv (s : ServerPoolState) : Prop :=
  (∀ addr, s.conns.countP (fun c => c.pooled && c.addr == addr) ≤ 1) ∧
    ∀ c ∈ s.conns, c.isOpen = true → c.pooled = true

theorem serverPoolInv_init : ServerPoolInv initServerPool := by
  constructor
  · intro addr
    simp [initServerPool]
  · intro c hc
    simp [initServerPool] at hc

theorem serverPoolInv_step (s : ServerPoolState) (e : PoolEvent)
    (h : ServerPoolInv s) : ServerPoolInv (serverPoolStep s e) := by
  obtain ⟨hone, hop⟩ := h
  cases e with
  | getOrCreate addr =>
    rw [serverPoolStep]
    cases hfind : s.conns.find? (fun c => c.pooled && c.addr == addr) with
    | some c =>
      simp only
      constructor
      · intro addr2
        rw [List.countP_map]
        refine le_trans (le_of_eq (List.countP_congr ?_)) (hone addr2)
        intro c2 _
        constructor
        · intro hp
          by_cases hid : c2.id = c.id <;> simpa [Function.comp, hid] using hp
        · intro hp
          by_cases hid : c2.id = c.id <;> simpa [Function.comp, hid] using hp
      · intro c2 hc2 hopen
        obtain ⟨c0, hc0mem, hc0⟩ := List.mem_map.mp hc2
        by_cases hid : c0.id = c.id
        · rw [← hc0]
          simp only [if_pos hid]
          simp only [if_pos hid] at hc0
          rw [← hc0] at hopen
          exact hop c0 hc0mem hopen
        · rw [← hc0]
          simp only [if_neg hid]
          simp only [if_neg hid] at hc0
          rw [← hc0] at hopen
          exact hop c0 hc0mem hopen
    | none =>
      simp only
      have hnone := List.find?_eq_none.mp hfind
      constructor
      · intro addr2
        rw [List.countP_append]
        by_cases haddr : addr2 = addr
        · subst haddr
          have hz : s.conns.countP (fun c => c.pooled && c.addr == addr2) = 0 :=
            List.countP_eq_zero.mpr hnone
          rw [hz]
          simp
        · have hone2 := hone addr2
          have : List.countP (fun c => c.pooled && c.addr == addr2)
              [ServerConn.mk s.nextId addr 1 true true] = 0 := by
            simp [List.countP_cons]
            omega
          omega
      · intro c2 hc2 hopen
        rcases List.mem_append.mp hc2 with hmem | hmem
        · exact hop c2 hmem hopen
        · simp at hmem
          rw [hmem]
  | release id =>
    rw [serverPoolStep]
    constructor
    · intro addr2
      rw [List.countP_map]
      refine le_trans (List.countP_mono_left ?_) (hone addr2)
      intro c2 _ hp
      by_cases hid : c2.id = id
      · simp only [Function.comp, if_pos hid] at hp
        by_cases hz : c2.refCount - 1 = 0
        · simp [hz] at hp
        · simpa [hz] using hp
      · simpa [Function.comp, hid] using hp
    · intro c2 hc2 hopen
      obtain ⟨c0, hc0mem, hc0⟩ := List.mem_map.mp hc2
      by_cases hid : c0.id = id
      · by_cases hz : c0.refCount - 1 = 0
        · rw [← hc0] at hopen
          simp [hid, hz] at hopen
        · rw [← hc0]
          simp only [if_pos hid, if_neg hz]
          simp only [if_pos hid, if_neg hz] at hc0
          rw [← hc0] at hopen
          exact hop c0 hc0mem (by simpa using hopen)
      · rw [← hc0]
        simp only [if_neg hid]
        simp only [if_neg hid] at hc0
        rw [← hc0] at hopen
        exact hop c0 hc0mem hopen

theorem serverPoolInv_run (s : ServerPoolState) (events : List PoolEvent)
    (h : ServerPoolInv s) : ServerPoolInv (runServerPool s events) := by
  induction events generalizing s with
  | nil => exact h
  | cons e rest ih => exact ih _ (serverPoolInv_step s e h)

/-- **C9**.  A server stream whose first frame is `PUDP(addr)` is handled
    with a dedicated per-stream socket exactly when `addr.port = 53` and
    through the shared-UDP sink otherwise; and under any sequence of
    `getOrCreate`/`release` operations the process-wide pool keeps at most
    one open UDP socket per target address. -/
theorem c9_udp_dispatch_and_shared_pool :
    (∀ a : Addr, (a.port = 53 → handleUDPDispatch a = .direct) ∧
      (a.port ≠ 53 → handleUDPDispatch a = .shared)) ∧
      ∀ (events : List PoolEvent) (addr : Nat),
        (runServerPool initServerPool events).conns.countP
            (fun c => c.isOpen && c.addr == addr) ≤ 1 := by
  constructor
  · intro a
    constructor
    · intro hp
      rw [handleUDPDispatch, if_pos hp]
    · intro hp
      rw [handleUDPDispatch, if_neg hp]
  · intro events addr
    obtain ⟨hone, hop⟩ := serverPoolInv_run initServerPool events serverPoolInv_init
    refine le_trans (List.countP_mono_left ?_) (hone addr)
    intro c hc hopen
    rw [Bool.and_eq_true] at hopen ⊢
    exact ⟨hop c hc hopen.1, hopen.2⟩

/-- Witness for C9: dispatch of `1.2.3.4:53` and `1.2.3.4:4789`, and a pool
    run where two streams join target 7, both release, and a third rejoins:
    never more than one open socket per target. -/
theorem c9_udp_dispatch_and_shared_pool_witness :
    handleUDPDispatch ⟨[49], 53⟩ = .direct ∧
      handleUDPDispatch ⟨[49], 4789⟩ = .shared ∧
      (runServerPool initServerPool
          [.getOrCreate 7, .getOrCreate 7, .release 0, .release 0, .getOrCreate 7]).conns.countP
          (fun c => c.isOpen && c.addr == 7) ≤ 1 :=
  ⟨(c9_udp_dispatch_and_shared_pool.1 ⟨[49], 53⟩).1 rfl,
    (c9_udp_dispatch_and_shared_pool.1 ⟨[49], 4789⟩).2 (by decide),
    c9_udp_dispatch_and_shared_pool.2
      [.getOrCreate 7, .getOrCreate 7, .release 0, .release 0, .getOrCreate 7] 7⟩

/-! ## C7: key derivation (`conf.DeriveKey`) and key trimming

`DeriveKey key = pbkdf2.Key(key, "paqet", 100000, 32, sha256.New)`.  PBKDF2,
HMAC and SHA-256 are Go standard-library / `x/crypto` code, embedded here
from their specifications (RFC 2898, RFC 2104, FIPS 180-4): `hmac.New`
normalises the key once (hashing keys longer than the 64-byte block), and
`pbkdf2.Key` builds that HMAC once and drives it. -/

/-- Big-endian 4-byte serialisation of a 32-bit word. -/
def u32be (x : Nat) : List Nat :=
  [x / 16777216 % 256, x / 65536 % 256, x / 256 % 256, x % 256]

@[simp] theorem u32be_length (x : Nat) : (u32be x).length = 4 := rfl

/-- Big-endian 8-byte serialisation of a 64-bit value. -/
def u64be (x : Nat) : List Nat :=
  [x / 72057594037927936 % 256, x / 281474976710656 % 256, x / 1099511627776 % 256,
    x / 4294967296 % 256, x / 16777216 % 256, x / 65536 % 256, x / 256 % 256, x % 256]

/-- Truncation to 32 bits. -/
def u32 (x : Nat) : Nat := x % 4294967296

/-- 32-bit right rotation. -/
def rotr32 (n x : Nat) : Nat := u32 ((x >>> n) ||| (x <<< (32 - n)))

/-- The SHA-256 round constants. -/
def sha256K : List Nat :=
  [1116352408, 1899447441, 3049323471, 3921009573, 961987163, 1508970993, 2453635748,
   2870763221, 3624381080, 310598401, 607225278, 1426881987, 1925078388, 2162078206,
   2614888103, 3248222580, 3835390401, 4022224774, 264347078, 604807628, 770255983,
   1249150122, 1555081692, 1996064986, 2554220882, 2821834349, 2952996808, 3210313671,
   3336571891, 3584528711, 113926993, 338241895, 666307205, 773529912, 1294757372,
   1396182291, 1695183700, 1986661051, 2177026350, 2456956037, 2730485921, 2820302411,
   3259730800, 3345764771, 3516065817, 3600352804, 4094571909, 275423344, 430227734,
   506948616, 659060556, 883997877, 958139571, 1322822218, 1537002063, 1747873779,
   1955562222, 2024104815, 2227730452, 2361852424, 2428436474, 2756734187, 3204031479,
   3329325298]

/-- Chaining state of SHA-256 (eight 32-bit words). -/
structure SHAState where
  h0 : Nat
  h1 : Nat
  h2 : Nat
  h3 : Nat
  h4 : Nat
  h5 : Nat
  h6 : Nat
  h7 : Nat
deriving DecidableEq, Repr

/-- Initial SHA-256 state. -/
def shaInit : SHAState :=
  ⟨1779033703, 3144134277, 1013904242, 2773480762,
    1359893119, 2600822924, 528734635, 1541459225⟩

/-- Big-endian 32-bit words of a byte list. -/
def bytesToU32s : List Nat → List Nat
  | b0 :: b1 :: b2 :: b3 :: rest =>
      (b0 * 16777216 + b1 * 65536 + b2 * 256 + b3) :: bytesToU32s rest
  | _ => []

/-- Message-schedule extension of the 16 block words to 64. -/
def scheduleGo : Nat → List Nat → List Nat
  | 0, w => w
  | fuel + 1, w =>
      if w.length ≥ 64 then w
      else
        let i := w.length
        let x15 := w.get! (i - 15)
        let x2 := w.get! (i - 2)
        let s0 := rotr32 7 x15 ^^^ rotr32 18 x15 ^^^ (x15 >>> 3)
        let s1 := rotr32 17 x2 ^^^ rotr32 19 x2 ^^^ (x2 >>> 10)
        scheduleGo fuel (w ++ [u32 (w.get! (i - 16) + s0 + w.get! (i - 7) + s1)])

/-- The 64 SHA-256 rounds (driven by the parallel constant/schedule lists). -/
def roundGo : List Nat → List Nat → SHAState → SHAState
  | k :: ks, w :: ws, st =>
      let s1 := rotr32 6 st.h4 ^^^ rotr32 11 st.h4 ^^^ rotr32 25 st.h4
      let ch := (st.h4 &&& st.h5) ^^^ ((st.h4 ^^^ 0xffffffff) &&& st.h6)
      let t1 := u32 (st.h7 + s1 + ch + k + w)
      let s0 := rotr32 2 st.h0 ^^^ rotr32 13 st.h0 ^^^ rotr32 22 st.h0
      let mj := (st.h0 &&& st.h1) ^^^ (st.h0 &&& st.h2) ^^^ (st.h1 &&& st.h2)
      let t2 := u32 (s0 + mj)
      roundGo ks ws
        ⟨u32 (t1 + t2), st.h0, st.h1, st.h2, u32 (st.h3 + t1), st.h4, st.h5, st.h6⟩
  | _, _, st => st

/-- One SHA-256 compression step on a 64-byte chunk. -/
def shaCompress (st : SHAState) (chunk : List Nat) : SHAState :=
  let st2 := roundGo sha256K (scheduleGo 48 (bytesToU32s chunk)) st
  ⟨u32 (st.h0 + st2.h0), u32 (st.h1 + st2.h1), u32 (st.h2 + st2.h2), u32 (st.h3 + st2.h3),
    u32 (st.h4 + st2.h4), u32 (st.h5 + st2.h5), u32 (st.h6 + st2.h6), u32 (st.h7 + st2.h7)⟩

/-- Process the padded message in 64-byte chunks (fuel-driven). -/
def shaChunksGo : Nat → SHAState → List Nat → SHAState
  | 0, st, _ => st
  | fuel + 1, st, bytes =>
      if bytes = [] then st
      else shaChunksGo fuel (shaCompress st (bytes.take 64)) (bytes.drop 64)

/-- SHA-256 padding: `0x80`, zeros to 56 mod 64, then the bit length. -/
def padMessage (msg : List Nat) : List Nat :=
  msg ++ 0x80 :: (List.replicate ((119 - msg.length % 64) % 64) 0 ++ u64be (msg.length * 8))

/-- Serialise the final state big-endian. -/
def serializeSHA (st : SHAState) : List Nat :=
  u32be st.h0 ++ u32be st.h1 ++ u32be st.h2 ++ u32be st.h3 ++ u32be st.h4 ++ u32be st.h5 ++
    u32be st.h6 ++ u32be st.h7

/-- SHA-256 of a byte string. -/
def sha256Bytes (msg : List Nat) : List Nat :=
  serializeSHA (shaChunksGo (padMessage msg).length shaInit (padMessage msg))

theorem sha256_length (msg : List Nat) : (sha256Bytes msg).length = 32 := by
  simp [sha256Bytes, serializeSHA, u32be]

/-- HMAC key normalisation: keys longer than the 64-byte block are hashed. -/
def hmacNormKey (key : List Nat) : List Nat :=
  if key.length > 64 then sha256Bytes key else key

/-- Zero-pad the (normalised) key to the 64-byte block size. -/
def hmacPadKey (key : List Nat) : List Nat := key ++ List.replicate (64 - key.length) 0

/-- The inner and outer padded keys (computed once by `hmac.New`). -/
def hmacKeyPads (key : List Nat) : List Nat × List Nat :=
  let k := hmacPadKey (hmacNormKey key)
  (k.map (fun b => b ^^^ 0x36), k.map (fun b => b ^^^ 0x5c))

/-- HMAC-SHA256 from precomputed pads. -/
def hmacCore (pads : List Nat × List Nat) (msg : List Nat) : List Nat :=
  sha256Bytes (pads.2 ++ sha256Bytes (pads.1 ++ msg))

/-- HMAC-SHA256. -/
def hmacSha256 (key msg : List Nat) : List Nat := hmacCore (hmacKeyPads key) msg

/-- The PBKDF2 inner loop: iterations 2..c, xoring successive `U` values. -/
def pbkdf2BlockGo (prf : List Nat → List Nat) : Nat → List Nat → List Nat → List Nat
  | 0, _, t => t
  | n + 1, u, t =>
      let u2 := prf u
      pbkdf2BlockGo prf n u2 (List.zipWith (fun a b => a ^^^ b) t u2)

/-- PBKDF2 with the HMAC pads built once from the password
    (`prf := hmac.New(h, password)` in `x/crypto/pbkdf2`). -/
def pbkdf2WithPads (pads : List Nat × List Nat) (salt : List Nat) (iter keyLen : Nat) :
    List Nat :=
  (((List.range ((keyLen + 31) / 32)).map fun b =>
      let u1 := hmacCore pads (salt ++ u32be (b + 1))
      pbkdf2BlockGo (hmacCore pads) (iter - 1) u1 u1).flatten).take keyLen

/-- `pbkdf2.Key` with `sha256.New`. -/
def pbkdf2Sha256 (pass salt : List Nat) (iter keyLen : Nat) : List Nat :=
  pbkdf2WithPads (hmacKeyPads pass) salt iter keyLen

/-- `conf.DeriveKey`: PBKDF2-SHA256, salt `"paqet"`, 100000 iterations,
    32 bytes. -/
def DeriveKey (key : List Nat) : List Nat :=
  pbkdf2Sha256 key [112, 97, 113, 101, 116] 100000 32

/-- `conf.TrimKey`: truncate when the block cipher fixes a smaller size. -/
def TrimKey (dkey : List Nat) (block : String) : List Nat :=
  if BlockKeySize block > 0 ∧ (dkey.length : Int) ≥ BlockKeySize block then
    dkey.take (BlockKeySize block).toNat
  else dkey

theorem hmacCore_length (pads : List Nat × List Nat) (msg : List Nat) :
    (hmacCore pads msg).length = 32 := sha256_length _

theorem pbkdf2BlockGo_length (prf : List Nat → List Nat)
    (hprf : ∀ x, (prf x).length = 32) :
    ∀ n u t, t.length = 32 → (pbkdf2BlockGo prf n u t).length = 32 := by
  intro n
  induction n with
  | zero => intro u t ht; exact ht
  | succ n ih =>
    intro u t ht
    rw [pbkdf2BlockGo]
    apply ih
    rw [List.length_zipWith, ht, hprf]
    rfl

theorem deriveKey_length (key : List Nat) : (DeriveKey key).length = 32 := by
  rw [DeriveKey, pbkdf2Sha256, pbkdf2WithPads]
  rw [show List.range ((32 + 31) / 32) = [0] from rfl]
  simp only [List.map_cons, List.map_nil, List.flatten_cons, List.flatten_nil,
    List.append_nil]
  rw [List.length_take]
  rw [pbkdf2BlockGo_length _ (fun x => hmacCore_length _ x) _ _ _ (hmacCore_length _ _)]
  decide

theorem blockKeySize_cases (block : String) (P : Int → Prop)
    (hm : P (-1)) (h0 : P 0) (h16 : P 16) (h24 : P 24) :
    P (BlockKeySize block) := by
  rw [BlockKeySize]
  by_cases c1 : block = "aes"
  · rw [if_pos c1]; exact h0
  rw [if_neg c1]
  by_cases c2 : block = "aes-128"
  · rw [if_pos c2]; exact h16
  rw [if_neg c2]
  by_cases c3 : block = "aes-128-gcm"
  · rw [if_pos c3]; exact h16
  rw [if_neg c3]
  by_cases c4 : block = "aes-192"
  · rw [if_pos c4]; exact h24
  rw [if_neg c4]
  by_cases c5 : block = "salsa20"
  · rw [if_pos c5]; exact h0
  rw [if_neg c5]
  by_cases c6 : block = "blowfish"
  · rw [if_pos c6]; exact h0
  rw [if_neg c6]
  by_cases c7 : block = "twofish"
  · rw [if_pos c7]; exact h0
  rw [if_neg c7]
  by_cases c8 : block = "cast5"
  · rw [if_pos c8]; exact h16
  rw [if_neg c8]
  by_cases c9 : block = "3des"
  · rw [if_pos c9]; exact h24
  rw [if_neg c9]
  by_cases c10 : block = "tea"
  · rw [if_pos c10]; exact h16
  rw [if_neg c10]
  by_cases c11 : block = "xtea"
  · rw [if_pos c11]; exact h16
  rw [if_neg c11]
  by_cases c12 : block = "xor"
  · rw [if_pos c12]; exact h0
  rw [if_neg c12]
  by_cases c13 : block = "sm4"
  · rw [if_pos c13]; exact h16
  rw [if_neg c13]
  by_cases c14 : block = "none"
  · rw [if_pos c14]; exact h0
  rw [if_neg c14]
  by_cases c15 : block = "null"
  · rw [if_pos c15]; exact h0
  rw [if_neg c15]
  exact hm

theorem blockKeySize_values (block : String) :
    BlockKeySize block = -1 ∨ BlockKeySize block = 0 ∨ BlockKeySize block = 16 ∨
      BlockKeySize block = 24 :=
  blockKeySize_cases block
    (fun v => v = -1 ∨ v = 0 ∨ v = 16 ∨ v = 24)
    (by norm_num) (by norm_num) (by norm_num) (by norm_num)

/-- **C7 counterexample**: the 65-byte passphrase `"aaa…a"` and the distinct
    passphrase consisting of its SHA-256 digest derive the same key, because
    HMAC hashes keys longer than its 64-byte block before padding. -/
theorem c7_counterexample :
    List.replicate 65 97 ≠ sha256Bytes (List.replicate 65 97) ∧
      DeriveKey (List.replicate 65 97) = DeriveKey (sha256Bytes (List.replicate 65 97)) := by
  constructor
  · intro hcon
    have := congrArg List.length hcon
    rw [List.length_replicate, sha256_length] at this
    exact absurd this (by decide)
  · have hpads : hmacKeyPads (List.replicate 65 97) =
        hmacKeyPads (sha256Bytes (List.replicate 65 97)) := by
      rw [hmacKeyPads, hmacKeyPads]
      have h1 : hmacNormKey (List.replicate 65 97) = sha256Bytes (List.replicate 65 97) := by
        rw [hmacNormKey, if_pos (by rw [List.length_replicate]; decide)]
      have h2 : hmacNormKey (sha256Bytes (List.replicate 65 97)) =
          sha256Bytes (List.replicate 65 97) := by
        rw [hmacNormKey, if_neg (by rw [sha256_length]; decide)]
      rw [h1, h2]
    rw [DeriveKey, DeriveKey, pbkdf2Sha256, pbkdf2Sha256, hpads]

/-- **C7** (amended: distinct passphrases can collide through HMAC key
    normalisation).  `DeriveKey` is a pure function producing 32 bytes; the
    same passphrase always yields the same key; any passphrase longer than
    64 bytes yields the same key as the passphrase equal to its SHA-256
    digest; and `TrimKey` truncates a 32-byte derived key to exactly 16 or
    24 bytes precisely for the block ciphers whose `BlockKeySize` is 16 or
    24, leaving it untouched otherwise. -/
theorem c7_derive_key_and_trim (p q dkey : List Nat) (block : String)
    (hpq : p = q) (hlong : p.length > 64) (hdk : dkey.length = 32) :
    (DeriveKey p).length = 32 ∧
      DeriveKey p = DeriveKey q ∧
      DeriveKey p = DeriveKey (sha256Bytes p) ∧
      (BlockKeySize block = -1 ∨ BlockKeySize block = 0 ∨ BlockKeySize block = 16 ∨
        BlockKeySize block = 24) ∧
      (BlockKeySize block > 0 →
        TrimKey dkey block = dkey.take (BlockKeySize block).toNat ∧
          ((TrimKey dkey block).length : Int) = BlockKeySize block) ∧
      (BlockKeySize block ≤ 0 → TrimKey dkey block = dkey) := by
  refine ⟨deriveKey_length p, by rw [hpq], ?_, ?_, ?_, ?_⟩
  · have hpads : hmacKeyPads p = hmacKeyPads (sha256Bytes p) := by
      rw [hmacKeyPads, hmacKeyPads]
      have h1 : hmacNormKey p = sha256Bytes p := by
        rw [hmacNormKey, if_pos hlong]
      have h2 : hmacNormKey (sha256Bytes p) = sha256Bytes p := by
        rw [hmacNormKey, if_neg (by rw [sha256_length]; decide)]
      rw [h1, h2]
    rw [DeriveKey, DeriveKey, pbkdf2Sha256, pbkdf2Sha256, hpads]
  · exact blockKeySize_values block
  · intro hpos
    rw [TrimKey]
    rcases blockKeySize_values block with h | h | h | h <;> rw [h] at hpos ⊢
    · exact absurd hpos (by decide)
    · exact absurd hpos (by decide)
    · rw [if_pos ⟨by decide, by rw [hdk]; decide⟩]
      refine ⟨rfl, ?_⟩
      rw [List.length_take, hdk]
      decide
    · rw [if_pos ⟨by decide, by rw [hdk]; decide⟩]
      refine ⟨rfl, ?_⟩
      rw [List.length_take, hdk]
      decide
  · intro hnonpos
    rw [TrimKey, if_neg (fun hcon => absurd hcon.1 (by omega))]

theorem c7_derive_key_and_trim_witness :
    (List.replicate 65 97 : List Nat) = List.replicate 65 97 ∧
      (List.replicate 65 97 : List Nat).length > 64 ∧
      (List.replicate 32 0 : List Nat).length = 32 ∧
      ((DeriveKey (List.replicate 65 97)).length = 32 ∧
        DeriveKey (List.replicate 65 97) = DeriveKey (List.replicate 65 97) ∧
        DeriveKey (List.replicate 65 97) =
          DeriveKey (sha256Bytes (List.replicate 65 97)) ∧
        (BlockKeySize "aes-128" = -1 ∨ BlockKeySize "aes-128" = 0 ∨
          BlockKeySize "aes-128" = 16 ∨ BlockKeySize "aes-128" = 24) ∧
        (BlockKeySize "aes-128" > 0 →
          TrimKey (List.replicate 32 0) "aes-128" =
              (List.replicate 32 0).take (BlockKeySize "aes-128").toNat ∧
            ((TrimKey (List.replicate 32 0) "aes-128").length : Int) =
              BlockKeySize "aes-128") ∧
        (BlockKeySize "aes-128" ≤ 0 →
          TrimKey (List.replicate 32 0) "aes-128" = List.replicate 32 0)) :=
  ⟨rfl, by decide, by decide,
    c7_derive_key_and_trim (List.replicate 65 97) (List.replicate 65 97)
      (List.replicate 32 0) "aes-128" rfl (by decide) (by decide)⟩

/-! ### C10: the UDP-mux per-packet AEAD (`part_017` NewCipher/Encrypt/Decrypt).
`NewCipher` normalizes the key to an AES size (or `nil` for an empty key);
`Encrypt` seals with AES-GCM, prepending the random nonce; `Decrypt` splits
the nonce off and opens.  AES and GCM are embedded in full below; the
round-trip proof is generic in the block function. -/

/-- The AES S-box (FIPS 197 figure 7). -/
def sbox : List Nat := [
   99, 124, 119, 123, 242, 107, 111, 197, 48, 1, 103, 43, 254, 215, 171, 118,
   202, 130, 201, 125, 250, 89, 71, 240, 173, 212, 162, 175, 156, 164, 114, 192,
   183, 253, 147, 38, 54, 63, 247, 204, 52, 165, 229, 241, 113, 216, 49, 21,
   4, 199, 35, 195, 24, 150, 5, 154, 7, 18, 128, 226, 235, 39, 178, 117,
   9, 131, 44, 26, 27, 110, 90, 160, 82, 59, 214, 179, 41, 227, 47, 132,
   83, 209, 0, 237, 32, 252, 177, 91, 106, 203, 190, 57, 74, 76, 88, 207,
   208, 239, 170, 251, 67, 77, 51, 133, 69, 249, 2, 127, 80, 60, 159, 168,
   81, 163, 64, 143, 146, 157, 56, 245, 188, 182, 218, 33, 16, 255, 243, 210,
   205, 12, 19, 236, 95, 151, 68, 23, 196, 167, 126, 61, 100, 93, 25, 115,
   96, 129, 79, 220, 34, 42, 144, 136, 70, 238, 184, 20, 222, 94, 11, 219,
   224, 50, 58, 10, 73, 6, 36, 92, 194, 211, 172, 98, 145, 149, 228, 121,
   231, 200, 55, 109, 141, 213, 78, 169, 108, 86, 244, 234, 101, 122, 174, 8,
   186, 120, 37, 46, 28, 166, 180, 198, 232, 221, 116, 31, 75, 189, 139, 138,
   112, 62, 181, 102, 72, 3, 246, 14, 97, 53, 87, 185, 134, 193, 29, 158,
   225, 248, 152, 17, 105, 217, 142, 148, 155, 30, 135, 233, 206, 85, 40, 223,
   140, 161, 137, 13, 191, 230, 66, 104, 65, 153, 45, 15, 176, 84, 187, 22]

def subBytes (s : List Nat) : List Nat := s.map (fun b => sbox.get! b)

def shiftRows (s : List Nat) : List Nat :=
  [s.get! 0, s.get! 5, s.get! 10, s.get! 15,
   s.get! 4, s.get! 9, s.get! 14, s.get! 3,
   s.get! 8, s.get! 13, s.get! 2, s.get! 7,
   s.get! 12, s.get! 1, s.get! 6, s.get! 11]

/-- Multiplication by x in GF(2^8) modulo x^8+x^4+x^3+x+1. -/
def xtime (b : Nat) : Nat := ((2 * b) ^^^ (if 128 ≤ b then 27 else 0)) % 256

def mul3 (b : Nat) : Nat := xtime b ^^^ b

def mixCol (a0 a1 a2 a3 : Nat) : List Nat :=
  [xtime a0 ^^^ mul3 a1 ^^^ a2 ^^^ a3,
   a0 ^^^ xtime a1 ^^^ mul3 a2 ^^^ a3,
   a0 ^^^ a1 ^^^ xtime a2 ^^^ mul3 a3,
   mul3 a0 ^^^ a1 ^^^ a2 ^^^ xtime a3]

def mixColumns (s : List Nat) : List Nat :=
  mixCol (s.get! 0) (s.get! 1) (s.get! 2) (s.get! 3) ++
    mixCol (s.get! 4) (s.get! 5) (s.get! 6) (s.get! 7) ++
      mixCol (s.get! 8) (s.get! 9) (s.get! 10) (s.get! 11) ++
        mixCol (s.get! 12) (s.get! 13) (s.get! 14) (s.get! 15)

def addRoundKey (s k : List Nat) : List Nat :=
  [s.get! 0 ^^^ k.get! 0, s.get! 1 ^^^ k.get! 1, s.get! 2 ^^^ k.get! 2,
   s.get! 3 ^^^ k.get! 3, s.get! 4 ^^^ k.get! 4, s.get! 5 ^^^ k.get! 5,
   s.get! 6 ^^^ k.get! 6, s.get! 7 ^^^ k.get! 7, s.get! 8 ^^^ k.get! 8,
   s.get! 9 ^^^ k.get! 9, s.get! 10 ^^^ k.get! 10, s.get! 11 ^^^ k.get! 11,
   s.get! 12 ^^^ k.get! 12, s.get! 13 ^^^ k.get! 13, s.get! 14 ^^^ k.get! 14,
   s.get! 15 ^^^ k.get! 15]

def rotWord (w : List Nat) : List Nat := [w.get! 1, w.get! 2, w.get! 3, w.get! 0]

def subWord (w : List Nat) : List Nat := w.map (fun b => sbox.get! b)

def rcon (i : Nat) : Nat :=
  [0, 1, 2, 4, 8, 16, 32, 64, 128, 27, 54, 108, 216, 171, 77, 154].get! i

def xorWord (a b : List Nat) : List Nat := List.zipWith Nat.xor a b

def chunk4Go : Nat → List Nat → List (List Nat)
  | 0, _ => []
  | _, [] => []
  | fuel + 1, l => l.take 4 :: chunk4Go fuel (l.drop 4)

/-- FIPS 197 key expansion, word `i` onward, with explicit fuel. -/
def keyExpandGo (nk : Nat) : Nat → Nat → List (List Nat) → List (List Nat)
  | _, 0, ws => ws
  | i, fuel + 1, ws =>
    let temp := ws.get! (i - 1)
    let temp :=
      if i % nk = 0 then xorWord (subWord (rotWord temp)) [rcon (i / nk), 0, 0, 0]
      else if 6 < nk ∧ i % nk = 4 then subWord temp
      else temp
    keyExpandGo nk (i + 1) fuel (ws ++ [xorWord (ws.get! (i - nk)) temp])

def expandKey (key : List Nat) : List (List Nat) :=
  keyExpandGo (key.length / 4) (key.length / 4)
    (4 * (key.length / 4 + 6 + 1) - key.length / 4) (chunk4Go key.length key)

def roundKey (ws : List (List Nat)) (r : Nat) : List Nat :=
  ws.get! (4 * r) ++ ws.get! (4 * r + 1) ++ ws.get! (4 * r + 2) ++ ws.get! (4 * r + 3)

def aesRoundsGo (ws : List (List Nat)) : Nat → Nat → List Nat → List Nat
  | _, 0, s => s
  | i, fuel + 1, s =>
    aesRoundsGo ws (i + 1) fuel
      (addRoundKey (mixColumns (shiftRows (subBytes s))) (roundKey ws i))

/-- AES block encryption (FIPS 197 section 5.1), for 16/24/32-byte keys. -/
def aesEncryptBlock (key block : List Nat) : List Nat :=
  addRoundKey
    (shiftRows (subBytes
      (aesRoundsGo (expandKey key) 1 (key.length / 4 + 6 - 1)
        (addRoundKey block (roundKey (expandKey key) 0)))))
    (roundKey (expandKey key) (key.length / 4 + 6))

theorem addRoundKey_length (s k : List Nat) : (addRoundKey s k).length = 16 := rfl

theorem aesEncryptBlock_length (key block : List Nat) :
    (aesEncryptBlock key block).length = 16 := addRoundKey_length _ _

/-- FIPS 197 appendix B known-answer check of the embedding. -/
theorem aesEncryptBlock_fips197 :
    aesEncryptBlock
      [0x2b, 0x7e, 0x15, 0x16, 0x28, 0xae, 0xd2, 0xa6,
       0xab, 0xf7, 0x15, 0x88, 0x09, 0xcf, 0x4f, 0x3c]
      [0x32, 0x43, 0xf6, 0xa8, 0x88, 0x5a, 0x30, 0x8d,
       0x31, 0x31, 0x98, 0xa2, 0xe0, 0x37, 0x07, 0x34] =
      [0x39, 0x25, 0x84, 0x1d, 0x02, 0xdc, 0x09, 0xfb,
       0xdc, 0x11, 0x85, 0x97, 0x19, 0x6a, 0x0b, 0x32] := by
  set_option maxRecDepth 10000 in decide

/-! GCM (NIST SP 800-38D) as implemented by Go crypto/cipher for a 12-byte
nonce and 16-byte tag, blocks as big-endian naturals for the GF(2^128) work. -/

def bytesToNatBE (l : List Nat) : Nat := l.foldl (fun a b => a * 256 + b) 0

def natTo16BE (n : Nat) : List Nat :=
  [n / 2 ^ 120 % 256, n / 2 ^ 112 % 256, n / 2 ^ 104 % 256, n / 2 ^ 96 % 256,
   n / 2 ^ 88 % 256, n / 2 ^ 80 % 256, n / 2 ^ 72 % 256, n / 2 ^ 64 % 256,
   n / 2 ^ 56 % 256, n / 2 ^ 48 % 256, n / 2 ^ 40 % 256, n / 2 ^ 32 % 256,
   n / 2 ^ 24 % 256, n / 2 ^ 16 % 256, n / 2 ^ 8 % 256, n % 256]

/-- GF(2^128) product, iterating over the bits of `x` most-significant first;
`225 * 2 ^ 120` is the reduction polynomial byte `0xe1` in the top byte. -/
def gf128MulGo (x : Nat) : Nat → Nat → Nat → Nat
  | 0, z, _ => z
  | f + 1, z, v =>
    gf128MulGo x f (if x / 2 ^ f % 2 = 1 then z ^^^ v else z)
      (if v % 2 = 0 then v / 2 else (v / 2) ^^^ (225 * 2 ^ 120))

def gf128Mul (x y : Nat) : Nat := gf128MulGo x 128 0 y

def ghashGo (h : Nat) : Nat → List (List Nat) → Nat
  | y, [] => y
  | y, b :: rest => ghashGo h (gf128Mul (y ^^^ bytesToNatBE b) h) rest

def chunk16Go : Nat → List Nat → List (List Nat)
  | 0, _ => []
  | _, [] => []
  | fuel + 1, l => (l.take 16 ++ List.replicate (16 - l.length) 0) :: chunk16Go fuel (l.drop 16)

def ghash (hk ct : List Nat) : List Nat :=
  natTo16BE (ghashGo (bytesToNatBE hk) 0
    (chunk16Go (ct.length + 1) ct ++ [u64be 0 ++ u64be (8 * ct.length)]))

def gcmJ0 (nonce : List Nat) : List Nat := nonce ++ [0, 0, 0, 1]

def gcmInc32 (c : List Nat) : List Nat :=
  c.take 12 ++ u32be (bytesToNatBE (c.drop 12) + 1)

def gcmKeystreamGo (E : List Nat → List Nat) : List Nat → Nat → List (List Nat)
  | _, 0 => []
  | c, n + 1 => E c :: gcmKeystreamGo E (gcmInc32 c) n

def ctrCrypt (E : List Nat → List Nat) (c msg : List Nat) : List Nat :=
  List.zipWith Nat.xor msg (gcmKeystreamGo E c ((msg.length + 15) / 16)).flatten

def gcmHashKey (E : List Nat → List Nat) : List Nat := E (List.replicate 16 0)

def gcmTag (E : List Nat → List Nat) (nonce ct : List Nat) : List Nat :=
  List.zipWith Nat.xor (ghash (gcmHashKey E) ct) (E (gcmJ0 nonce))

/-- `aead.Seal(nonce, nonce, plaintext, nil)`: nonce, then ciphertext, then tag. -/
def gcmSeal (E : List Nat → List Nat) (nonce pt : List Nat) : List Nat :=
  nonce ++ ctrCrypt E (gcmInc32 (gcmJ0 nonce)) pt ++
    gcmTag E nonce (ctrCrypt E (gcmInc32 (gcmJ0 nonce)) pt)

/-- `aead.Open(ciphertext[:0], nonce, ciphertext, nil)`. -/
def gcmOpen (E : List Nat → List Nat) (nonce data : List Nat) :
    Except String (List Nat) :=
  if data.length < 16 then Except.error "cipher: message authentication failed"
  else if gcmTag E nonce (data.take (data.length - 16)) = data.drop (data.length - 16)
  then Except.ok (ctrCrypt E (gcmInc32 (gcmJ0 nonce)) (data.take (data.length - 16)))
  else Except.error "cipher: message authentication failed"

/-- The key-size normalization in `NewCipher` (part_017): take 32/24/16 bytes,
or zero-pad short keys to 16 bytes. -/
def normalizeAESKey (key : List Nat) : List Nat :=
  if 32 ≤ key.length then key.take 32
  else if 24 ≤ key.length then key.take 24
  else if 16 ≤ key.length then key.take 16
  else key ++ List.replicate (16 - key.length) 0

/-- `NewCipher`: an empty key means no encryption (`nil` cipher, `nil` error);
otherwise an AES-GCM AEAD over the normalized key (for which `aes.NewCipher`
and `cipher.NewGCM` cannot fail). -/
def NewCipher (key : List Nat) : Option (List Nat) :=
  if key = [] then none else some (normalizeAESKey key)

/-- `Cipher.Encrypt` with the random nonce made explicit: a `nil` cipher
returns the plaintext unchanged, otherwise `Seal` output `nonce ++ ct ++ tag`. -/
def cipherEncrypt : Option (List Nat) → List Nat → List Nat → List Nat
  | none, _, plaintext => plaintext
  | some k, nonce, plaintext => gcmSeal (aesEncryptBlock k) nonce plaintext

/-- `Cipher.Decrypt`: a `nil` cipher returns the data unchanged; data shorter
than the 12-byte nonce is "ciphertext too short"; otherwise `Open` on the
split nonce/ciphertext. -/
def cipherDecrypt : Option (List Nat) → List Nat → Except String (List Nat)
  | none, data => Except.ok data
  | some k, data =>
    if data.length < 12 then Except.error "ciphertext too short"
    else gcmOpen (aesEncryptBlock k) (data.take 12) (data.drop 12)

theorem cipherEncrypt_some (k nonce pt : List Nat) :
    cipherEncrypt (some k) nonce pt = gcmSeal (aesEncryptBlock k) nonce pt := rfl

theorem cipherDecrypt_some (k data : List Nat) :
    cipherDecrypt (some k) data =
      if data.length < 12 then Except.error "ciphertext too short"
      else gcmOpen (aesEncryptBlock k) (data.take 12) (data.drop 12) := rfl

theorem natTo16BE_length (n : Nat) : (natTo16BE n).length = 16 := rfl

theorem ghash_length (hk ct : List Nat) : (ghash hk ct).length = 16 :=
  natTo16BE_length _

theorem gcmKeystreamGo_flatten_length (E : List Nat → List Nat)
    (hE : ∀ x, (E x).length = 16) :
    ∀ (n : Nat) (c : List Nat), (gcmKeystreamGo E c n).flatten.length = 16 * n := by
  intro n
  induction n with
  | zero => intro c; rfl
  | succ n ih =>
    intro c
    simp only [gcmKeystreamGo, List.flatten_cons, List.length_append, hE, ih]
    ring

theorem ctrCrypt_length (E : List Nat → List Nat) (hE : ∀ x, (E x).length = 16)
    (c msg : List Nat) : (ctrCrypt E c msg).length = msg.length := by
  rw [ctrCrypt, List.length_zipWith, gcmKeystreamGo_flatten_length E hE]
  omega

theorem gcmTag_length (E : List Nat → List Nat) (hE : ∀ x, (E x).length = 16)
    (nonce ct : List Nat) : (gcmTag E nonce ct).length = 16 := by
  rw [gcmTag, List.length_zipWith, ghash_length, hE]
  decide

theorem zipWith_xor_cancel :
    ∀ l ks : List Nat, l.length ≤ ks.length →
      List.zipWith Nat.xor (List.zipWith Nat.xor l ks) ks = l := by
  intro l
  induction l with
  | nil => intro ks _; rfl
  | cons a l ih =>
    intro ks hks
    cases ks with
    | nil => simp at hks
    | cons k ks =>
      simp only [List.zipWith]
      refine congrArg₂ List.cons ?_ (ih ks (by simpa using hks))
      exact Nat.xor_cancel_right k a

theorem ctrCrypt_ctrCrypt (E : List Nat → List Nat) (hE : ∀ x, (E x).length = 16)
    (c msg : List Nat) : ctrCrypt E c (ctrCrypt E c msg) = msg := by
  rw [ctrCrypt, ctrCrypt_length E hE, ctrCrypt]
  exact zipWith_xor_cancel msg _
    (by rw [gcmKeystreamGo_flatten_length E hE]; omega)

/-- Generic GCM round-trip: `Open` of a `Seal` body (ciphertext then tag)
recovers the plaintext, for any 16-byte block function. -/
theorem gcmOpen_gcmSeal (E : List Nat → List Nat) (hE : ∀ x, (E x).length = 16)
    (nonce pt : List Nat) :
    gcmOpen E nonce
      (ctrCrypt E (gcmInc32 (gcmJ0 nonce)) pt ++
        gcmTag E nonce (ctrCrypt E (gcmInc32 (gcmJ0 nonce)) pt)) = Except.ok pt := by
  have hct : (ctrCrypt E (gcmInc32 (gcmJ0 nonce)) pt).length = pt.length :=
    ctrCrypt_length E hE _ _
  have htag : (gcmTag E nonce (ctrCrypt E (gcmInc32 (gcmJ0 nonce)) pt)).length = 16 :=
    gcmTag_length E hE _ _
  rw [gcmOpen, List.length_append, hct, htag, if_neg (by omega),
    show pt.length + 16 - 16 = pt.length from by omega,
    ← hct, List.take_left, List.drop_left, if_pos rfl,
    ctrCrypt_ctrCrypt E hE]

/-- **C10**: for every non-empty key the UDP-mux AEAD round-trips
(`Decrypt (Encrypt p) = p`, with `Encrypt` prepending the 12-byte nonce it
used and `Decrypt` consuming it); the `nil` cipher from an empty key leaves
data unchanged in both directions; and `Decrypt` of anything shorter than the
nonce size fails with "ciphertext too short". -/
theorem c10_udp_mux_cipher (key nonce p : List Nat)
    (hkey : key ≠ []) (hn : nonce.length = 12) :
    NewCipher [] = none ∧
      NewCipher key = some (normalizeAESKey key) ∧
      cipherDecrypt (NewCipher key) (cipherEncrypt (NewCipher key) nonce p) =
        Except.ok p ∧
      (∀ d : List Nat, cipherEncrypt none nonce d = d ∧
        cipherDecrypt none d = Except.ok d) ∧
      (∀ k d : List Nat, d.length < 12 →
        cipherDecrypt (some k) d = Except.error "ciphertext too short") := by
  have hc : NewCipher key = some (normalizeAESKey key) := by
    rw [NewCipher, if_neg hkey]
  refine ⟨rfl, hc, ?_, fun d => ⟨rfl, rfl⟩, fun k d hd => by
    rw [cipherDecrypt_some, if_pos hd]⟩
  rw [hc, cipherEncrypt_some, cipherDecrypt_some, gcmSeal, List.append_assoc,
    List.length_append, hn, if_neg (by omega), List.take_left' hn,
    List.drop_left' hn]
  exact gcmOpen_gcmSeal (aesEncryptBlock (normalizeAESKey key))
    (fun x => aesEncryptBlock_length _ _) nonce p

theorem c10_udp_mux_cipher_witness :
    ([1] : List Nat) ≠ [] ∧ (List.replicate 12 0 : List Nat).length = 12 ∧
      (NewCipher [] = none ∧
        NewCipher [1] = some (normalizeAESKey [1]) ∧
        cipherDecrypt (NewCipher [1])
            (cipherEncrypt (NewCipher [1]) (List.replicate 12 0) [42]) =
          Except.ok [42] ∧
        (∀ d : List Nat, cipherEncrypt none (List.replicate 12 0) d = d ∧
          cipherDecrypt none d = Except.ok d) ∧
        (∀ k d : List Nat, d.length < 12 →
          cipherDecrypt (some k) d = Except.error "ciphertext too short")) :=
  ⟨by decide, by decide,
    c10_udp_mux_cipher [1] (List.replicate 12 0) [42] (by decide) (by decide)⟩

end Paqet
